import Mathlib

/-!
# ZeroTier One: `node/HttpClient.cpp`, `P_Req::threadMain`

A shallow embedding of the unix implementation of the HTTP client, which runs
the external `curl` binary, collects its standard output through a pipe and
reports one result to a completion handler.

* A `char` is a `Char`, a `std::string` (and a C string) is a `List Char`.
* Everything the operating system answers is a field of `Env`: the file
  existence check, the value returned by `vfork`, what each iteration of the
  `select` loop observes, what each `read` of the drain loop returns, whether
  the child ever exits when it is left alone, what the blocking `waitpid`
  stores when it returns.
* A slot of `curlArgs` holds a `c_str()` pointer; it is modelled by the C
  string behind the pointer, which ends at the first NUL byte (`cstr`).
* A thread that stays blocked for ever in the `waitpid` of line 219 has a run
  that ends with `Action.hang`.
* The two `for(;;)` loops take a fuel argument and return `none` when it runs
  out before the loop is left.
* `unsigned long long` arithmetic on the deadline is taken modulo `2^64`.
-/

namespace ZeroTier

/-- A `std::string`: the sequence of its bytes. -/
abbrev Str := List Char

/-! ## Constants (lines 69-74) -/

def NUM_CURL_PATHS : Nat := 5

def CURL_PATHS : List Str :=
  ["/usr/bin/curl".toList, "/bin/curl".toList, "/usr/local/bin/curl".toList,
   "/usr/sbin/curl".toList, "/sbin/curl".toList]

def CURL_MAX_MESSAGE_LENGTH : Nat := 1024 * 1024 * 64

/-! ## Diagnostic texts handed to the handler -/

def msgToolNotFound : Str :=
  "unable to locate 'curl' binary in /usr/bin, /bin, /usr/local/bin, /usr/sbin, or /sbin".toList

def msgEmptyURL : Str := "cannot fetch empty URL".toList

def msgForkFailed : Str := "unable to fork()".toList

def msgTimedOut : Str := "connection timed out".toList

def msgTooLong : Str := "response too long".toList

def msgToolExecutionFailed : Str :=
  "connection failed (curl returned non-zero exit code)".toList

def msgEmptyResponse : Str := "HTTP response empty".toList

def msgNoStatusLine : Str := "invalid HTTP response (no status line)".toList

def msgInvalidCode : Str := "invalid HTTP response (invalid response code)".toList

def msgNoStatusMessage : Str := "(no status message from server)".toList

/-! ## Data model -/

/-- The members of `P_Req` that the request is made of (lines 289-292).  The
header map is given by its entries in iteration order, which for a `std::map`
is ascending key order. -/
structure Request where
  url : Str
  headers : List (Str × Str)
  timeout : Nat
deriving DecidableEq

/-- One invocation `_handler(_arg,status,url,flag,text)`. -/
structure HandlerCall where
  status : Int
  url : Str
  flag : Bool
  text : Str
deriving DecidableEq

/-- What `::read(curlStdout[0],buf,sizeof(buf))` returned: `n = b.length`
bytes, or a negative value. -/
inductive ReadResult
  | bytes (b : Str)
  | error
deriving DecidableEq

/-- What one iteration of the `select` loop (lines 162-216) observes. -/
structure PollEvent where
  /-- `FD_ISSET(curlStdout[0],&readfds)` -/
  stdoutReadable : Bool
  /-- result of the `read` of line 175, when it is performed -/
  stdoutRead : ReadResult
  /-- `Utils::now()` at line 179 -/
  nowAfterRead : Nat
  /-- `FD_ISSET(curlStderr[0],&readfds)` -/
  stderrReadable : Bool
  /-- `FD_ISSET(curlStdout[0],&errfds)` -/
  stdoutErr : Bool
  /-- `FD_ISSET(curlStderr[0],&errfds)` -/
  stderrErr : Bool
  /-- `Utils::now()` at line 193 -/
  nowAtCheck : Nat
  /-- `waitpid(pid,&exitCode,WNOHANG)`: the status stored when it returned a
  value `> 0`, `none` when it returned `0` or `-1` -/
  waitNoHang : Option Int

/-- The answers of the operating system during one run of `threadMain`. -/
structure Env where
  /-- `Utils::fileExists` -/
  fileExists : Str → Bool
  /-- value returned by `vfork()` on the path that is followed -/
  forkResult : Int
  /-- `Utils::now()` at line 159 -/
  nowAtStart : Nat
  /-- the observations of the `i`-th iteration of the `select` loop -/
  poll : Nat → PollEvent
  /-- the `k`-th `read` of the drain loop (line 202) -/
  drain : Nat → ReadResult
  /-- whether the child, when it is not killed, ever exits; when it does not,
  a `waitpid(pid,&exitCode,0)` on it never returns -/
  childExits : Bool
  /-- `waitpid(pid,&exitCode,0)` of line 219, when it returns: the status
  stored, `none` when the call fails and leaves `exitCode` alone -/
  waitBlocking : Option Int
  /-- whether `execv` returns (line 285 is only reached then) -/
  execvFails : Bool

/-- The system calls and handler invocations of a run, in program order.
`hang` stands for a call that never returns: nothing follows it. -/
inductive Action
  | pipe
  | vfork
  | close
  | kill
  | waitpid
  | hang
  | fcntl
  | dup2
  | execv (path : Str) (argv : List (Option Str))
  | exit (code : Int)
  | handler (c : HandlerCall)
deriving DecidableEq

/-- The local variables of the parent branch (lines 158-161) together with
`_body` and `pid`; `killed` records that `::kill(pid,SIGKILL)` was issued. -/
structure Locals where
  body : Str
  pid : Int
  exitCode : Int
  timesOutAt : Nat
  timedOut : Bool
  tooLong : Bool
  killed : Bool
deriving DecidableEq

/-- Outcome of one iteration of the `select` loop: the loop goes on (`next`),
is left by one of the `break`s of lines 181-196 (`done`), or line 199 found
that the child has exited and stored its status (`exited`). -/
inductive Step
  | next (s : Locals)
  | done (s : Locals)
  | exited (s : Locals)
deriving DecidableEq

/-! ## Tool lookup (lines 98-104) -/

/-- The loop over `CURL_PATHS`; the empty string when no candidate exists. -/
def findCurl (fileExists : Str → Bool) : List Str → Str
  | [] => []
  | p :: ps => if fileExists p then p else findCurl fileExists ps

/-! ## Argument vector (lines 117-134) -/

/-- The C string behind `s.c_str()` as `execv` reads it: the bytes before the
first NUL byte. -/
def cstr (s : Str) : Str := s.takeWhile (fun c => c ≠ '\x00')

/-- Lines 122-126: one `name: value` string per entry of `_headers`. -/
def headerArgs (headers : List (Str × Str)) : List Str :=
  headers.map (fun h => h.1 ++ ": ".toList ++ h.2)

/-- Lines 127-132.  `args` is `curlArgs[0..argPtr)`; a slot holds the C
string its pointer points to. -/
def headerArgLoop : List Str → List (Option Str) → Nat → List (Option Str) × Nat
  | [], args, argPtr => (args, argPtr)
  | h :: hs, args, argPtr =>
    if argPtr ≥ 1024 - 4 then (args, argPtr)
    else headerArgLoop hs (args ++ [some "-H".toList, some (cstr h)]) (argPtr + 2)

/-- Lines 117-134: the slots of `curlArgs` that were written, `none` being the
null pointer, and the final value of `argPtr` (the index of the terminator). -/
def buildArgs (curlPath : Str) (req : Request) : List (Option Str) × Nat :=
  let r := headerArgLoop (headerArgs req.headers)
    [some (cstr curlPath), some "-D".toList, some "-".toList] 3
  (r.1 ++ [some (cstr req.url)] ++ [none], r.2 + 1)

/-! ## Response parsing (lines 230-274) -/

/-- Lines 237-246.  The vector `headers` is `done ++ [back]`; the result is
the vector and `idx` when the loop is left. -/
def scanHeaders : Str → List Str → Str → Nat → List Str × Nat
  | [], done, back, idx => (done ++ [back], idx)
  | c :: rest, done, back, idx =>
    if c = '\n' then
      if back.length = 0 then (done, idx + 1)
      else scanHeaders rest (done ++ [back]) [] (idx + 1)
    else if c ≠ '\r' then scanHeaders rest done (back ++ [c]) (idx + 1)
    else scanHeaders rest done back (idx + 1)

/-- The function `std::string::find(char)`: `none` is `npos`. -/
def find : Str → Char → Option Nat
  | [], _ => none
  | c :: cs, x => if c = x then some 0 else (find cs x).map (· + 1)

/-- The function `std::string::substr(pos,n)`. -/
def substr (s : Str) (pos n : Nat) : Str := (s.drop pos).take n

/-- C `isspace` in the "C" locale. -/
def isspace (c : Char) : Bool :=
  c = ' ' || c = '\t' || c = '\n' || c = '\x0b' || c = '\x0c' || c = '\r'

def isdigit (c : Char) : Bool := '0' ≤ c && c ≤ '9'

/-- The digits at the front of a string, accumulated in base 10. -/
def parseDigits : Str → Nat → Nat
  | [], acc => acc
  | c :: cs, acc => if isdigit c then parseDigits cs (acc * 10 + (c.toNat - 48)) else acc

/-- C `strtoul(s,0,10)` with a 64-bit `unsigned long`: blanks are skipped, one
sign is accepted, the digits that follow are read (none gives 0), a value that
does not fit gives `ULONG_MAX`, a minus sign negates modulo `2^64`. -/
def strtoul10 (s : Str) : Nat :=
  match s.dropWhile isspace with
  | [] => 0
  | c :: r =>
    if c = '-' then
      let v := parseDigits r 0
      if v ≥ 2 ^ 64 then 2 ^ 64 - 1 else (2 ^ 64 - v) % 2 ^ 64
    else if c = '+' then min (parseDigits r 0) (2 ^ 64 - 1)
    else min (parseDigits (c :: r) 0) (2 ^ 64 - 1)

/-- Modelled from the spec: `Utils::strToUInt` is declared in `Utils.hpp`,
which is not among the sources; it is read as C `strtoul` in base 10 with the
result converted to `unsigned int`.  The argument is a `c_str()`; a NUL byte
is neither blank, sign nor digit, so reading stops there in `strtoul10` as it
does in C. -/
def strToUInt (s : Str) : Nat := strtoul10 s % 2 ^ 32

/-- Lines 253-273: the status line `front` is parsed and the handler is
invoked; `idx` is where the scan of the headers stopped. -/
def parseStatusLine (url body : Str) (idx : Nat) (front : Str) : HandlerCall :=
  match find front ' ' with
  | none => ⟨-1, url, false, msgNoStatusLine⟩
  | some p =>
    let scPos := p + 1
    let rcode := strToUInt (substr front scPos 3)
    if rcode = 0 ∨ rcode > 999 then ⟨-1, url, false, msgInvalidCode⟩
    else if rcode = 200 then ⟨rcode, url, false, body.drop idx⟩
    else if scPos + 4 < front.length then ⟨rcode, url, false, front.drop (scPos + 4)⟩
    else ⟨rcode, url, false, msgNoStatusMessage⟩

/-- Lines 231-273: the handler invocation made for a clean exit. -/
def parseResponse (url body : Str) : HandlerCall :=
  let r := scanHeaders body [] [] 0
  match r.1 with
  | [] => ⟨-1, url, false, msgEmptyResponse⟩
  | front :: _ =>
    if front.length = 0 then ⟨-1, url, false, msgEmptyResponse⟩
    else parseStatusLine url body r.2 front

/-- Lines 224-274: the single handler invocation of the parent branch. -/
def deliver (url : Str) (s : Locals) : HandlerCall :=
  if s.timedOut then ⟨-1, url, false, msgTimedOut⟩
  else if s.tooLong then ⟨-1, url, false, msgTooLong⟩
  else if s.exitCode ≠ 0 then ⟨-1, url, false, msgToolExecutionFailed⟩
  else parseResponse url s.body

/-! ## The two loops (lines 162-216) -/

/-- Lines 200-212, the drain loop; `k` counts the reads made so far. -/
def drainLoop (rd : Nat → ReadResult) : Nat → Nat → Locals → Option Locals
  | 0, _, _ => none
  | fuel + 1, k, s =>
    match rd k with
    | .error => some s
    | .bytes b =>
      if b.length ≤ 0 then some s
      else
        let s1 := { s with body := s.body ++ b }
        if s1.body.length > CURL_MAX_MESSAGE_LENGTH then some { s1 with tooLong := true }
        else drainLoop rd fuel (k + 1) s1

/-- Lines 174-187 of one iteration: the read of standard output (the outcome
is never `exited`). -/
def readStdout (timeout : Nat) (ev : PollEvent) (s : Locals) : Step :=
  if ev.stdoutReadable then
    match ev.stdoutRead with
    | .error => .done s
    | .bytes b =>
      let s1 : Locals :=
        if b.length > 0 then
          { s with body := s.body ++ b,
                   timesOutAt := (ev.nowAfterRead + timeout * 1000) % 2 ^ 64 }
        else s
      if s1.body.length > CURL_MAX_MESSAGE_LENGTH then
        .done { s1 with killed := true, tooLong := true }
      else .next s1
  else .next s

/-- One iteration of the `select` loop, lines 163-199.  The read of standard
error at line 189 changes no variable. -/
def pollStep (timeout : Nat) (ev : PollEvent) (s : Locals) : Step :=
  match readStdout timeout ev s with
  | .done s1 => .done s1
  | .exited s1 => .exited s1
  | .next s1 =>
    if ev.stdoutErr || ev.stderrErr then .done s1
    else if ev.nowAtCheck ≥ s1.timesOutAt then
      .done { s1 with killed := true, timedOut := true }
    else
      match ev.waitNoHang with
      | none => .next s1
      | some status => .exited { s1 with exitCode := status }

/-- The `select` loop of lines 162-216, started at iteration `i`; when the
child has exited the drain loop runs and `pid` is cleared (lines 200-214). -/
def pollLoop (timeout : Nat) (env : Env) : Nat → Nat → Locals → Option Locals
  | 0, _, _ => none
  | fuel + 1, i, s =>
    match pollStep timeout (env.poll i) s with
    | .next s1 => pollLoop timeout env fuel (i + 1) s1
    | .done s1 => some s1
    | .exited s1 => (drainLoop env.drain fuel 0 s1).map (fun s2 => { s2 with pid := 0 })

/-- The variables at line 162, before the first iteration. -/
def initLocals (req : Request) (env : Env) : Locals :=
  { body := [], pid := env.forkResult, exitCode := -1,
    timesOutAt := (env.nowAtStart + req.timeout * 1000) % 2 ^ 64,
    timedOut := false, tooLong := false, killed := false }

/-- Whether the `waitpid(pid,&exitCode,0)` of line 219 returns: a child that
was sent `SIGKILL` (lines 183, 194) dies, a child that was left alone (the
breaks of lines 181 and 191) has to exit by itself. -/
def waitReturns (env : Env) (s : Locals) : Bool := s.killed || env.childExits

/-- Lines 218-219: the blocking wait for a child that was not reaped, when the
call returns (see `waitReturns`). -/
def reap (env : Env) (s : Locals) : Locals :=
  if s.pid > 0 then
    match env.waitBlocking with
    | some status => { s with exitCode := status }
    | none => s
  else s

/-! ## `P_Req::threadMain` (lines 91-287) -/

/-- Lines 136-277 on the parent branch, once the `select` loop has been left
with the variables `s`: the pipes, the fork, the two `close` and `fcntl` calls
of lines 153-156, the forced kill the loop may have issued, the wait of line
219 and, when that wait returns, the two `close` calls of lines 221-222 and
the handler invocation. -/
def parentTrace (req : Request) (env : Env) (s : Locals) : List Action :=
  [.pipe, .pipe, .vfork, .close, .close, .fcntl, .fcntl]
    ++ (if s.killed then [.kill] else [])
    ++ (if s.pid > 0 ∧ waitReturns env s = false then [.waitpid, .hang]
        else (if s.pid > 0 then [.waitpid] else [])
          ++ [.close, .close, .handler (deliver req.url (reap env s))])

/-- The run of `threadMain`, as the sequence of its system calls and handler
invocations. -/
def threadMain (req : Request) (env : Env) (fuel : Nat) : Option (List Action) :=
  let curlPath := findCurl env.fileExists CURL_PATHS
  if curlPath.length = 0 then
    some [.handler ⟨-1, req.url, false, msgToolNotFound⟩]
  else if req.url.length = 0 then
    some [.handler ⟨-1, req.url, false, msgEmptyURL⟩]
  else
    let curlArgs := (buildArgs curlPath req).1
    if env.forkResult < 0 then
      some [.pipe, .pipe, .vfork, .close, .close, .close, .close,
            .handler ⟨-1, req.url, false, msgForkFailed⟩]
    else if env.forkResult > 0 then
      (pollLoop req.timeout env fuel 0 (initLocals req env)).map (parentTrace req env)
    else
      some ([.pipe, .pipe, .vfork, .dup2, .close, .dup2, .close,
             .execv (cstr curlPath) curlArgs]
        ++ (if env.execvFails then [.exit (-1)] else []))

/-- The handler invocations of a run. -/
def handlerCalls : List Action → List HandlerCall
  | [] => []
  | .handler c :: as => c :: handlerCalls as
  | _ :: as => handlerCalls as

/-- Whether a run created a pipe or a process. -/
def spawns (as : List Action) : Bool :=
  as.any (fun a => a = .pipe || a = .vfork)

/-! ## Notions used to state the properties -/

/-- The first line of the captured output, in the words of the specification
("lines delimited by line-feed, carriage-return stripped"): the bytes before
the first line feed, carriage returns left out. -/
def firstLine (body : Str) : Str :=
  (body.takeWhile (fun c => c ≠ '\n')).filter (fun c => c ≠ '\r')

/-- A line terminator: LF or CRLF. -/
def IsEOL (t : Str) : Prop := t = ['\n'] ∨ t = ['\r', '\n']

/-- The value of three decimal digits. -/
def codeValue (d1 d2 d3 : Char) : Nat :=
  (d1.toNat - 48) * 100 + (d2.toNat - 48) * 10 + (d3.toNat - 48)

/-- The variables at line 224 after the child was seen to exit with status 0
and `body` was collected: `pid` has been cleared, no flag is set. -/
def cleanExit (body : Str) : Locals :=
  { body := body, pid := 0, exitCode := 0, timesOutAt := 0,
    timedOut := false, tooLong := false, killed := false }

/-- The clock value at the most recent read of standard output that returned
more than 0 bytes among the iterations before the `k`-th, or the clock value
at loop entry when there was none. -/
def lastProgress (env : Env) : Nat → Nat
  | 0 => env.nowAtStart
  | k + 1 =>
    if (env.poll k).stdoutReadable then
      match (env.poll k).stdoutRead with
      | .bytes b => if b.length > 0 then (env.poll k).nowAfterRead else lastProgress env k
      | .error => lastProgress env k
    else lastProgress env k

/-- The variables at the start of the `k`-th iteration of the `select` loop;
`none` when the loop was left before. -/
def localsAt (req : Request) (env : Env) : Nat → Option Locals
  | 0 => some (initLocals req env)
  | k + 1 =>
    match localsAt req env k with
    | none => none
    | some s =>
      match pollStep req.timeout (env.poll k) s with
      | .next s1 => some s1
      | _ => none

/-- The `k`-th iteration gets as far as the deadline check of line 193. -/
def reachesCheck (req : Request) (env : Env) (k : Nat) : Bool :=
  match localsAt req env k with
  | none => false
  | some s =>
    match readStdout req.timeout (env.poll k) s with
    | .next _ => !((env.poll k).stdoutErr || (env.poll k).stderrErr)
    | _ => false

/-- Wall-clock time goes on: whenever the loop is at the start of an
iteration `i`, the deadline check of that or of a later iteration reads a
clock value at or past the deadline that is in force there, which is
`timeout * 1000` ms after the most recent read that returned bytes. -/
def ClockAdvances (req : Request) (env : Env) : Prop :=
  ∀ i s, localsAt req env i = some s →
    ∃ j, i ≤ j ∧
      (lastProgress env i + req.timeout * 1000) % 2 ^ 64 ≤ (env.poll j).nowAtCheck

/-! ## Sample requests and environments -/

/-- A full buffer: the 16384 bytes that one `read` into `buf` returns at most. -/
def fullBuf : Str := List.replicate 16384 'a'

def sampleRequest : Request :=
  { url := "http://x/".toList, headers := [("Accept".toList, "*/*".toList)], timeout := 30 }

/-- The sample request with a stall timeout of 2 seconds. -/
def hastyRequest : Request := { sampleRequest with timeout := 2 }

/-- The sample request without a URL. -/
def emptyRequest : Request := { sampleRequest with url := [] }

/-- An event in which nothing is readable, no error is flagged, the clock
reads `now` and the child has not exited. -/
def idleEvent (now : Nat) : PollEvent :=
  { stdoutReadable := false, stdoutRead := .bytes [], nowAfterRead := now,
    stderrReadable := false, stdoutErr := false, stderrErr := false,
    nowAtCheck := now, waitNoHang := none }

/-- An environment in which `/usr/bin/curl` exists when `curl` is set, the
fork succeeds, the child is found to have exited with `status` in the first
iteration and the drain loop then reads `out` followed by end of file. -/
def sampleEnv (curl : Bool) (out : Str) (status : Int) : Env :=
  { fileExists := fun p => curl && decide (p = "/usr/bin/curl".toList),
    forkResult := 7, nowAtStart := 1000,
    poll := fun _ => { idleEvent 1000 with waitNoHang := some status },
    drain := fun k => if k = 0 then .bytes out else .bytes [],
    childExits := true, waitBlocking := none, execvFails := false }

/-- The sample environment as the child sees it: `vfork` has returned 0. -/
def childEnv : Env := { sampleEnv true [] 0 with forkResult := 0 }

/-- An environment in which the child writes without pause: every iteration
of the `select` loop reads a full buffer and so does every read of the drain
loop; the clock stands at 0; the child is found to have exited with wait
status 256 (exit code 1) in iteration `exitAt`, when one is given. -/
def floodEnv (exitAt : Option Nat) : Env :=
  { fileExists := fun p => decide (p = "/usr/bin/curl".toList),
    forkResult := 7, nowAtStart := 0,
    poll := fun i =>
      { stdoutReadable := true, stdoutRead := .bytes fullBuf, nowAfterRead := 0,
        stderrReadable := false, stdoutErr := false, stderrErr := false,
        nowAtCheck := 0, waitNoHang := if exitAt = some i then some 256 else none },
    drain := fun _ => .bytes fullBuf, childExits := false,
    waitBlocking := some 9, execvFails := false }

/-- An environment in which the child writes one byte every 20 seconds and
never exits; the `i`-th iteration runs at second `20 * (i + 1)`. -/
def slowEnv : Env :=
  { fileExists := fun p => decide (p = "/usr/bin/curl".toList),
    forkResult := 7, nowAtStart := 0,
    poll := fun i =>
      { stdoutReadable := true, stdoutRead := .bytes ['a'], nowAfterRead := 20000 * (i + 1),
        stderrReadable := false, stdoutErr := false, stderrErr := false,
        nowAtCheck := 20000 * (i + 1), waitNoHang := none },
    drain := fun _ => .bytes [], childExits := false,
    waitBlocking := some 9, execvFails := false }

/-- An environment in which the child writes nothing and never exits; the
`i`-th iteration runs at second `i + 1`. -/
def stalledEnv : Env :=
  { fileExists := fun p => decide (p = "/usr/bin/curl".toList),
    forkResult := 7, nowAtStart := 0,
    poll := fun i => idleEvent (1000 * (i + 1)),
    drain := fun _ => .bytes [], childExits := false,
    waitBlocking := some 9, execvFails := false }

/-- The sample request with a URL that starts with a NUL byte. -/
def nulRequest : Request := { sampleRequest with url := "\x00abc".toList }

/-- An environment in which `select` is interrupted in the first iteration:
the descriptor sets are left as `FD_SET` filled them, so standard output counts
as readable and the non-blocking `read` returns -1; the child writes nothing
and never exits. -/
def interruptedEnv : Env :=
  { fileExists := fun p => decide (p = "/usr/bin/curl".toList),
    forkResult := 7, nowAtStart := 1000,
    poll := fun _ =>
      { stdoutReadable := true, stdoutRead := .error, nowAfterRead := 1000,
        stderrReadable := true, stdoutErr := true, stderrErr := true,
        nowAtCheck := 1000, waitNoHang := none },
    drain := fun _ => .bytes [], childExits := false,
    waitBlocking := none, execvFails := false }

/-- An environment in which the child writes nothing and exits by itself only
after the stall timeout; the `i`-th iteration runs at second `i + 1` on a
clock that stops at `2^63`. -/
def idleEnv : Env :=
  { fileExists := fun p => decide (p = "/usr/bin/curl".toList),
    forkResult := 7, nowAtStart := 0,
    poll := fun i => idleEvent (min (1000 * (i + 1)) (2 ^ 63)),
    drain := fun _ => .bytes [], childExits := true,
    waitBlocking := some 9, execvFails := false }

/-- The blank-delimited tokens of a line; `cur` is the token being read. -/
def tokens : Str → Str → List Str
  | [], cur => if cur = [] then [] else [cur]
  | c :: cs, cur =>
    if isspace c then (if cur = [] then tokens cs [] else cur :: tokens cs [])
    else tokens cs (cur ++ [c])

/-! ## Loop invariant and postcondition -/

/-- What holds of the variables at the start of every iteration. -/
def LoopInv (s : Locals) : Prop :=
  s.body.length ≤ CURL_MAX_MESSAGE_LENGTH ∧ s.tooLong = false ∧ s.timedOut = false

/-- What holds of the variables when the loop has been left. -/
def LoopPost (s : Locals) : Prop :=
  (s.tooLong = true ↔ s.body.length > CURL_MAX_MESSAGE_LENGTH) ∧
  (s.tooLong = true → s.timedOut = false) ∧
  ∃ pre chunk, s.body = pre ++ chunk ∧ pre.length ≤ CURL_MAX_MESSAGE_LENGTH

/-! # Theorems -/

theorem curl_paths_count : CURL_PATHS.length = NUM_CURL_PATHS := rfl

theorem findCurl_none (f : Str → Bool) (ps : List Str) (h : ∀ p ∈ ps, f p = false) :
    findCurl f ps = [] := by
  induction ps with
  | nil => rfl
  | cons p ps ih =>
    simp only [findCurl, h p (List.mem_cons_self _ _)]
    exact ih (fun q hq => h q (List.mem_cons_of_mem _ hq))

theorem findCurl_first (f : Str → Bool) (ps : List Str) (h : ∃ p ∈ ps, f p = true) :
    ∃ pre post, ps = pre ++ findCurl f ps :: post ∧ f (findCurl f ps) = true ∧
      ∀ q ∈ pre, f q = false := by
  induction ps with
  | nil => simp at h
  | cons p ps ih =>
    by_cases hp : f p = true
    · exact ⟨[], ps, by simp [findCurl, hp], by simp [findCurl, hp], by simp⟩
    · have hp2 : f p = false := by simpa using hp
      obtain ⟨q, hq, hfq⟩ := h
      have hq2 : q ∈ ps := by
        rcases List.mem_cons.mp hq with rfl | h2
        · rw [hfq] at hp2; cases hp2
        · exact h2
      obtain ⟨pre, post, h1, h2, h3⟩ := ih ⟨q, hq2, hfq⟩
      refine ⟨p :: pre, post, ?_, ?_, ?_⟩
      · simp only [findCurl, hp2]; simp; exact h1
      · simpa [findCurl, hp2] using h2
      · intro r hr
        rcases List.mem_cons.mp hr with rfl | h4
        · exact hp2
        · exact h3 r h4

theorem findCurl_mem (f : Str → Bool) (ps : List Str) (h : ∃ p ∈ ps, f p = true) :
    findCurl f ps ∈ ps := by
  obtain ⟨pre, post, h1, _, _⟩ := findCurl_first f ps h
  have h2 : findCurl f ps ∈ pre ++ findCurl f ps :: post := by simp
  rw [← h1] at h2
  exact h2

theorem curlPath_length_pos (f : Str → Bool) (h : ∃ p ∈ CURL_PATHS, f p = true) :
    (findCurl f CURL_PATHS).length ≠ 0 := by
  have := findCurl_mem f CURL_PATHS h
  generalize findCurl f CURL_PATHS = t at this
  simp [CURL_PATHS] at this
  rcases this with rfl | rfl | rfl | rfl | rfl <;> decide

/-- C9: when none of the five candidate paths passes the existence check, the
run consists of one handler invocation with status -1 and the text of the
missing tool; no pipe is created and no process is forked.  (This holds for
any URL, the non-empty ones included.) -/
theorem C9_tool_not_found (req : Request) (env : Env) (fuel : Nat)
    (hnone : ∀ p ∈ CURL_PATHS, env.fileExists p = false) :
    ∃ t, threadMain req env fuel = some t ∧
      handlerCalls t = [⟨-1, req.url, false, msgToolNotFound⟩] ∧ spawns t = false := by
  refine ⟨[.handler ⟨-1, req.url, false, msgToolNotFound⟩], ?_, rfl, rfl⟩
  simp [threadMain, findCurl_none _ _ hnone]


theorem headerArgLoop_eq (hs : List Str) (args : List (Option Str)) (p : Nat) :
    headerArgLoop hs args p =
      (args ++ (hs.take ((1021 - p) / 2)).flatMap
          (fun h => [some "-H".toList, some (cstr h)]),
       p + 2 * min hs.length ((1021 - p) / 2)) := by
  induction hs generalizing args p with
  | nil => simp [headerArgLoop]
  | cons h hs ih =>
    unfold headerArgLoop
    by_cases hp : p ≥ 1024 - 4
    · have h0 : (1021 - p) / 2 = 0 := by omega
      simp [hp, h0]
    · have h1 : (1021 - p) / 2 = (1021 - (p + 2)) / 2 + 1 := by omega
      rw [if_neg hp, ih, h1]
      simp [List.take_succ_cons, List.flatMap_cons, List.length_cons]
      omega

theorem scanHeaders_head (rest : Str) (done : List Str) (back : Str) (idx : Nat)
    (h : done ≠ []) : (scanHeaders rest done back idx).1.head? = done.head? := by
  induction rest generalizing done back idx with
  | nil =>
    cases done with
    | nil => exact absurd rfl h
    | cons d ds => simp [scanHeaders]
  | cons c rest ih =>
    unfold scanHeaders
    split_ifs with h1 h2 h3
    · rfl
    · rw [ih _ _ _ (by simp)]
      cases done with
      | nil => exact absurd rfl h
      | cons d ds => simp
    · exact ih _ _ _ h
    · exact ih _ _ _ h

theorem scanHeaders_front (rest back : Str) (idx : Nat) :
    (scanHeaders rest [] back idx).1.head? = some (back ++ firstLine rest) ∨
      ((scanHeaders rest [] back idx).1 = [] ∧ back ++ firstLine rest = []) := by
  induction rest generalizing back idx with
  | nil => left; simp [scanHeaders, firstLine]
  | cons c rest ih =>
    unfold scanHeaders
    split_ifs with h1 h2 h3
    · right
      subst h1
      simp [firstLine, List.takeWhile]
      exact List.length_eq_zero.mp h2
    · left
      subst h1
      rw [scanHeaders_head _ _ _ _ (by simp)]
      simp [firstLine, List.takeWhile]
    · have := ih (back ++ [c]) (idx + 1)
      have e : firstLine (c :: rest) = c :: firstLine rest := by
        simp [firstLine, List.takeWhile, h1, h3]
      rw [e]
      simpa using this
    · have := ih back (idx + 1)
      have e : firstLine (c :: rest) = firstLine rest := by
        have h4 : c = '\r' := by simpa using h3
        subst h4
        simp [firstLine, List.takeWhile]
      rw [e]
      exact this

theorem parseResponse_of_firstLine (url body : Str) (h : firstLine body ≠ []) :
    parseResponse url body =
      parseStatusLine url body (scanHeaders body [] [] 0).2 (firstLine body) := by
  have hf := scanHeaders_front body [] 0
  simp only [List.nil_append] at hf
  rcases hf with hf | ⟨_, hf⟩
  · cases hr : (scanHeaders body [] [] 0).1 with
    | nil => rw [hr] at hf; simp at hf
    | cons front tl =>
      rw [hr] at hf
      simp only [List.head?_cons, Option.some.injEq] at hf
      subst hf
      have hl : (firstLine body).length ≠ 0 := by
        intro h0; exact h (List.length_eq_zero.mp h0)
      simp only [parseResponse, hr, hl, if_false]
  · exact absurd hf h

theorem parseResponse_of_firstLine_nil (url body : Str) (h : firstLine body = []) :
    parseResponse url body = ⟨-1, url, false, msgEmptyResponse⟩ := by
  have hf := scanHeaders_front body [] 0
  simp only [List.nil_append, h] at hf
  rcases hf with hf | ⟨hf, _⟩
  · cases hr : (scanHeaders body [] [] 0).1 with
    | nil => simp only [parseResponse, hr]
    | cons front tl =>
      rw [hr] at hf
      simp only [List.head?_cons, Option.some.injEq] at hf
      subst hf
      simp [parseResponse, hr]
  · simp only [parseResponse, hf]

theorem isdigit_iff (c : Char) : isdigit c = true ↔ 48 ≤ c.toNat ∧ c.toNat ≤ 57 := by
  simp only [isdigit, Bool.and_eq_true, decide_eq_true_eq]
  rfl

theorem isdigit_not_space (c : Char) (h : isdigit c = true) : isspace c = false := by
  rw [isdigit_iff] at h
  simp only [isspace, Bool.or_eq_false_iff, decide_eq_false_iff_not]
  refine ⟨⟨⟨⟨⟨?_, ?_⟩, ?_⟩, ?_⟩, ?_⟩, ?_⟩ <;>
  · intro e; subst e; revert h; decide

theorem isdigit_not_sign (c : Char) (h : isdigit c = true) : c ≠ '-' ∧ c ≠ '+' := by
  rw [isdigit_iff] at h
  constructor <;>
  · intro e; subst e; revert h; decide

theorem strToUInt_three_digits (d1 d2 d3 : Char)
    (h1 : isdigit d1 = true) (h2 : isdigit d2 = true) (h3 : isdigit d3 = true) :
    strToUInt [d1, d2, d3] = codeValue d1 d2 d3 := by
  have e1 := isdigit_not_space d1 h1
  have ⟨n1, n2⟩ := isdigit_not_sign d1 h1
  have b1 := (isdigit_iff d1).mp h1
  have b2 := (isdigit_iff d2).mp h2
  have b3 := (isdigit_iff d3).mp h3
  simp only [strToUInt, strtoul10, List.dropWhile, e1, n1, n2, if_false, parseDigits, h1, h2, h3,
    if_true, codeValue]
  have : (0 * 10 + (d1.toNat - 48)) * 10 + (d2.toNat - 48) < 100 := by omega
  rw [Nat.min_def]
  split_ifs <;> omega

theorem find_append (v r : Str) (x : Char) (h : x ∉ v) :
    find (v ++ x :: r) x = some v.length := by
  induction v with
  | nil => simp [find]
  | cons c v ih =>
    have hc : c ≠ x := fun e => h (by simp [e])
    have hv : x ∉ v := fun e => h (by simp [e])
    simp [find, hc, ih hv]

theorem scanHeaders_line (l rest : Str) (done : List Str) (back : Str) (idx : Nat)
    (hl : '\n' ∉ l) (hne : back ++ l.filter (fun c => c ≠ '\r') ≠ []) :
    scanHeaders (l ++ '\n' :: rest) done back idx =
      scanHeaders rest (done ++ [back ++ l.filter (fun c => c ≠ '\r')]) [] (idx + l.length + 1) := by
  induction l generalizing back idx with
  | nil =>
    have hb : back.length ≠ 0 := by
      intro h0; apply hne; simp [List.length_eq_zero.mp h0]
    simp [scanHeaders, hb]
  | cons c l ih =>
    have hc : c ≠ '\n' := fun e => hl (by simp [e])
    have hl2 : '\n' ∉ l := fun e => hl (by simp [e])
    by_cases hr : c = '\r'
    · subst hr
      have := ih back (idx + 1) hl2 (by simpa using hne)
      rw [List.cons_append, scanHeaders]
      simp only [Char.reduceEq, if_false, ne_eq, not_true_eq_false, if_false]
      rw [this]
      simp [List.filter]
      congr 1; omega
    · have := ih (back ++ [c]) (idx + 1) hl2 (by simp [List.filter, hr])
      rw [List.cons_append, scanHeaders]
      simp only [hc, hr, if_false, ne_eq, not_false_eq_true, if_true]
      rw [this]
      simp [List.filter, hr]
      congr 1; omega

theorem scanHeaders_blank (l rest : Str) (done : List Str) (idx : Nat)
    (hl : ∀ c ∈ l, c = '\r') :
    scanHeaders (l ++ '\n' :: rest) done [] idx = (done, idx + l.length + 1) := by
  induction l generalizing idx with
  | nil => simp [scanHeaders]
  | cons c l ih =>
    have hc : c = '\r' := hl c (by simp)
    subst hc
    have := ih (idx + 1) (fun c hc => hl c (by simp [hc]))
    rw [List.cons_append, scanHeaders]
    simp only [Char.reduceEq, if_false, ne_eq, not_true_eq_false, if_false]
    rw [this]; simp; omega

theorem scanHeaders_eol_line (l t rest : Str) (done : List Str) (idx : Nat)
    (hl : '\n' ∉ l) (ht : IsEOL t) (hne : l.filter (fun c => c ≠ '\r') ≠ []) :
    scanHeaders (l ++ t ++ rest) done [] idx =
      scanHeaders rest (done ++ [l.filter (fun c => c ≠ '\r')]) [] (idx + (l ++ t).length) := by
  rcases ht with rfl | rfl
  · have := scanHeaders_line l rest done [] idx hl (by simpa using hne)
    simp only [List.nil_append] at this
    rw [List.append_assoc, List.singleton_append, this]
    simp [Nat.add_assoc]
  · have h2 : '\n' ∉ l ++ ['\r'] := by simp [hl]
    have := scanHeaders_line (l ++ ['\r']) rest done [] idx h2 (by simpa using hne)
    simp only [List.nil_append] at this
    have e : l ++ ['\r', '\n'] ++ rest = (l ++ ['\r']) ++ '\n' :: rest := by simp
    rw [e, this]
    simp [Nat.add_assoc]

theorem scanHeaders_eol_blank (t rest : Str) (done : List Str) (idx : Nat) (ht : IsEOL t) :
    scanHeaders (t ++ rest) done [] idx = (done, idx + t.length) := by
  rcases ht with rfl | rfl
  · simpa using scanHeaders_blank [] rest done idx (by simp)
  · simpa using scanHeaders_blank ['\r'] rest done idx (by simp)

theorem scanHeaders_header_lines (hs : List (Str × Str)) (rest : Str) (done : List Str)
    (idx : Nat)
    (hh : ∀ h ∈ hs, '\n' ∉ h.1 ∧ (∃ c ∈ h.1, c ≠ '\r') ∧ IsEOL h.2) :
    scanHeaders (hs.flatMap (fun h => h.1 ++ h.2) ++ rest) done [] idx =
      scanHeaders rest (done ++ hs.map (fun h => h.1.filter (fun c => c ≠ '\r'))) []
        (idx + (hs.flatMap (fun h => h.1 ++ h.2)).length) := by
  induction hs generalizing done idx with
  | nil => simp
  | cons h hs ih =>
    obtain ⟨h1, ⟨c, hc, hcr⟩, h3⟩ := hh h (by simp)
    have hne : h.1.filter (fun c => c ≠ '\r') ≠ [] := by
      intro e
      have : c ∈ h.1.filter (fun c => c ≠ '\r') := by
        simp [List.mem_filter, hc, hcr]
      rw [e] at this
      simp at this
    rw [List.flatMap_cons, List.append_assoc,
      scanHeaders_eol_line h.1 h.2 _ done idx h1 h3 hne,
      ih _ _ (fun g hg => hh g (by simp [hg]))]
    simp [Nat.add_assoc]

theorem deliver_clean (url : Str) (s : Locals)
    (hto : s.timedOut = false) (htl : s.tooLong = false) (hexit : s.exitCode = 0) :
    deliver url s = parseResponse url s.body := by
  simp [deliver, hto, htl, hexit]

theorem filter_cr_no_space (v : Str) (h : ' ' ∉ v) : ' ' ∉ v.filter (fun c => c ≠ '\r') := by
  intro h2
  exact h (List.mem_filter.mp h2).1

/-- C2: round trip of the response framing.  When the loop was left without
timeout or overflow and with exit status 0, and the captured output is a
status line `version SP 200 rest`, a line terminator (LF or CRLF), any number
of header lines each followed by LF or CRLF, one more LF or CRLF (the empty
line) and a payload `p`, then the handler receives status 200 and the body
`p`, whatever bytes `p` holds.  A header line is not empty in the sense of the
test at line 240: it has no line feed and holds a byte other than a carriage
return (carriage returns are not stored in a line, line 244). -/
theorem C2_round_trip (url version rest t0 te p : Str) (hs : List (Str × Str)) (s : Locals)
    (hto : s.timedOut = false) (htl : s.tooLong = false) (hexit : s.exitCode = 0)
    (hv : ' ' ∉ version ∧ '\n' ∉ version) (hr : '\n' ∉ rest)
    (ht0 : IsEOL t0) (hte : IsEOL te)
    (hh : ∀ h ∈ hs, '\n' ∉ h.1 ∧ (∃ c ∈ h.1, c ≠ '\r') ∧ IsEOL h.2)
    (hbody : s.body = version ++ " 200".toList ++ rest ++ t0
      ++ hs.flatMap (fun h => h.1 ++ h.2) ++ te ++ p) :
    deliver url s = ⟨200, url, false, p⟩ := by
  rw [deliver_clean url s hto htl hexit, hbody]
  have hl0 : '\n' ∉ version ++ " 200".toList ++ rest := by
    simp [hv.2, hr]
  have hf0 : (version ++ " 200".toList ++ rest).filter (fun c => c ≠ '\r') =
      version.filter (fun c => c ≠ '\r') ++ ' ' :: '2' :: '0' :: '0' ::
        rest.filter (fun c => c ≠ '\r') := by
    simp [List.filter_append, List.filter]
  have hne0 : (version ++ " 200".toList ++ rest).filter (fun c => c ≠ '\r') ≠ [] := by
    rw [hf0]; simp
  have hscan : scanHeaders (version ++ " 200".toList ++ rest ++ t0
      ++ hs.flatMap (fun h => h.1 ++ h.2) ++ te ++ p) [] [] 0 =
      ((version ++ " 200".toList ++ rest).filter (fun c => c ≠ '\r') ::
          hs.map (fun h => h.1.filter (fun c => c ≠ '\r')),
        (version ++ " 200".toList ++ rest ++ t0
          ++ hs.flatMap (fun h => h.1 ++ h.2) ++ te).length) := by
    have e : version ++ " 200".toList ++ rest ++ t0
        ++ hs.flatMap (fun h => h.1 ++ h.2) ++ te ++ p =
        (version ++ " 200".toList ++ rest) ++ t0
          ++ (hs.flatMap (fun h => h.1 ++ h.2) ++ (te ++ p)) := by
      simp only [List.append_assoc]
    rw [e, scanHeaders_eol_line _ t0 _ [] 0 hl0 ht0 hne0,
      scanHeaders_header_lines hs _ _ _ hh, scanHeaders_eol_blank te p _ _ hte]
    simp [Nat.add_assoc]
    omega
  simp only [parseResponse, hscan]
  have hlen : ((version ++ " 200".toList ++ rest).filter (fun c => c ≠ '\r')).length ≠ 0 := by
    intro h0; exact hne0 (List.length_eq_zero.mp h0)
  simp only [hlen, if_false]
  rw [hf0]
  have hfind := find_append (version.filter (fun c => c ≠ '\r'))
    ('2' :: '0' :: '0' :: rest.filter (fun c => c ≠ '\r')) ' ' (filter_cr_no_space _ hv.1)
  have hsub : substr (version.filter (fun c => c ≠ '\r') ++ ' ' :: '2' :: '0' :: '0' ::
      rest.filter (fun c => c ≠ '\r')) ((version.filter (fun c => c ≠ '\r')).length + 1) 3
      = ['2', '0', '0'] := by
    simp [substr, List.drop_append]
  have hcode : strToUInt ['2', '0', '0'] = 200 := by decide
  have hd := List.drop_left (version ++ " 200".toList ++ rest ++ t0
      ++ hs.flatMap (fun h => h.1 ++ h.2) ++ te) p
  simp only [parseStatusLine, hfind, hsub, hcode]
  simpa using hd

/-- A line that holds nothing but carriage returns is an empty line for the
scan of lines 237-246: it ends the header block, and what follows it is body. -/
theorem cr_only_line_ends_headers :
    deliver "u".toList (cleanExit "HTTP/1.1 200 OK\n\r\r\n\nabc".toList)
      = ⟨200, "u".toList, false, "\nabc".toList⟩ := by
  decide

/-- Carriage returns inside the status line are dropped from the message that
is delivered for a status other than 200. -/
theorem cr_dropped_from_message :
    deliver "u".toList (cleanExit "HTTP/1.1 404 Not\rFound\r\n\r\n".toList)
      = ⟨404, "u".toList, false, "NotFound".toList⟩ := by
  decide

/-- C2 at a response with CRLF and LF line ends whose payload contains line
ends and a blank line. -/
theorem C2_round_trip_witness :
    deliver "http://x".toList (cleanExit "HTTP/1.1 200 OK\r\nA: b\r\nC: d\n\r\nline\r\n\nend".toList)
      = ⟨200, "http://x".toList, false, "line\r\n\nend".toList⟩ :=
  C2_round_trip "http://x".toList "HTTP/1.1".toList " OK".toList ['\r', '\n'] ['\r', '\n']
    "line\r\n\nend".toList [("A: b".toList, ['\r', '\n']), ("C: d".toList, ['\n'])]
    (cleanExit "HTTP/1.1 200 OK\r\nA: b\r\nC: d\n\r\nline\r\n\nend".toList)
    rfl rfl rfl (by decide) (by decide) (Or.inr rfl) (Or.inr rfl)
    (by intro h hh
        simp only [List.mem_cons, List.mem_singleton, List.not_mem_nil, or_false] at hh
        rcases hh with rfl | rfl
        · exact ⟨by decide, ⟨'A', by decide, by decide⟩, Or.inr rfl⟩
        · exact ⟨by decide, ⟨'C', by decide, by decide⟩, Or.inl rfl⟩)
    (by decide)

theorem parseStatusLine_three_digits (url body version tail : Str) (idx : Nat) (d1 d2 d3 : Char)
    (hv : ' ' ∉ version)
    (h1 : isdigit d1 = true) (h2 : isdigit d2 = true) (h3 : isdigit d3 = true)
    (hc1 : 1 ≤ codeValue d1 d2 d3) :
    parseStatusLine url body idx (version ++ ' ' :: d1 :: d2 :: d3 :: tail) =
      if codeValue d1 d2 d3 = 200 then ⟨(codeValue d1 d2 d3 : Nat), url, false, body.drop idx⟩
      else if tail.length > 1 then ⟨(codeValue d1 d2 d3 : Nat), url, false, tail.drop 1⟩
      else ⟨(codeValue d1 d2 d3 : Nat), url, false, msgNoStatusMessage⟩ := by
  have hfind := find_append version (d1 :: d2 :: d3 :: tail) ' ' hv
  have hsub : substr (version ++ ' ' :: d1 :: d2 :: d3 :: tail) (version.length + 1) 3
      = [d1, d2, d3] := by
    simp [substr, List.drop_append]
  have hle : codeValue d1 d2 d3 ≤ 999 := by
    have b1 := (isdigit_iff d1).mp h1
    have b2 := (isdigit_iff d2).mp h2
    have b3 := (isdigit_iff d3).mp h3
    simp only [codeValue]; omega
  have hdrop : List.drop (version.length + 1 + 4) (version ++ ' ' :: d1 :: d2 :: d3 :: tail)
      = tail.drop 1 := by
    have e : version.length + 1 + 4 = version.length + 5 := by omega
    rw [e, List.drop_append]
    simp
  simp only [parseStatusLine, hfind, hsub, strToUInt_three_digits d1 d2 d3 h1 h2 h3, hdrop]
  have hn : ¬ (codeValue d1 d2 d3 = 0 ∨ codeValue d1 d2 d3 > 999) := by omega
  rw [if_neg hn]
  have hlen : (version.length + 1 + 4 < (version ++ ' ' :: d1 :: d2 :: d3 :: tail).length)
      ↔ tail.length > 1 := by
    simp; omega
  simp only [hlen]

/-- C6: for a clean exit whose first line is `version SP d1 d2 d3 tail` with
no space in `version` and three decimal digits of value in 1..999 other than
200, the handler receives that value as status; the text is what follows the
first character of `tail` when `tail` has at least two characters, and
"(no status message from server)" when `tail` is empty or a single character.
The body after the empty line plays no part.  The first line is `firstLine`:
the bytes before the first line feed without their carriage returns. -/
theorem C6_non200_message (url version tail : Str) (d1 d2 d3 : Char) (s : Locals)
    (hto : s.timedOut = false) (htl : s.tooLong = false) (hexit : s.exitCode = 0)
    (hv : ' ' ∉ version)
    (h1 : isdigit d1 = true) (h2 : isdigit d2 = true) (h3 : isdigit d3 = true)
    (hc1 : 1 ≤ codeValue d1 d2 d3) (hc2 : codeValue d1 d2 d3 ≠ 200)
    (hline : firstLine s.body = version ++ ' ' :: d1 :: d2 :: d3 :: tail) :
    (∀ d msg, tail = d :: msg → msg ≠ [] →
      deliver url s = ⟨(codeValue d1 d2 d3 : Nat), url, false, msg⟩) ∧
    ((tail = [] ∨ ∃ d, tail = [d]) →
      deliver url s = ⟨(codeValue d1 d2 d3 : Nat), url, false, msgNoStatusMessage⟩) := by
  have hne : firstLine s.body ≠ [] := by rw [hline]; simp
  rw [deliver_clean url s hto htl hexit, parseResponse_of_firstLine url s.body hne, hline,
    parseStatusLine_three_digits url s.body version tail _ d1 d2 d3 hv h1 h2 h3 hc1, if_neg hc2]
  constructor
  · intro d msg ht hm
    subst ht
    have : (d :: msg).length > 1 := by
      cases msg with
      | nil => exact absurd rfl hm
      | cons m ms => simp
    rw [if_pos this]
    rfl
  · rintro (rfl | ⟨d, rfl⟩) <;> simp

/-- C6 at `HTTP/1.1 404 Not Found`: status 404 with the text `Not Found`. -/
theorem C6_non200_message_witness :
    deliver "http://x".toList (cleanExit "HTTP/1.1 404 Not Found\n\n".toList)
      = ⟨404, "http://x".toList, false, "Not Found".toList⟩ :=
  (C6_non200_message "http://x".toList "HTTP/1.1".toList " Not Found".toList '4' '0' '4'
    (cleanExit "HTTP/1.1 404 Not Found\n\n".toList) rfl rfl rfl (by decide) (by decide)
    (by decide) (by decide) (by decide) (by decide) (by decide)).1 ' ' "Not Found".toList rfl
    (by decide)

/-- C5 (amended): for a clean exit (no timeout, no overflow, status 0) and a
first line that is not empty: (1) the result is a protocol status `c` in
1..999 exactly when the first line has a space and `strtoul`, applied to the at
most three characters after the first space and converted to `unsigned int`,
gives `c`; (2) a first line without a space gives -1 with "invalid HTTP
response (no status line)"; (3) a first line with a space for which that
number is 0 or above 999 gives -1 with "invalid HTTP response (invalid
response code)"; (4) a first line `version SP d1 d2 d3 ...` with no space in
`version` and three decimal digits of value in 1..999 gives that value. -/
theorem C5_status_line (url : Str) (s : Locals)
    (hto : s.timedOut = false) (htl : s.tooLong = false) (hexit : s.exitCode = 0)
    (hne : firstLine s.body ≠ []) :
    (∀ c : Nat, 1 ≤ c → c ≤ 999 →
      ((deliver url s).status = c ↔
        ∃ p, find (firstLine s.body) ' ' = some p ∧
          strToUInt (substr (firstLine s.body) (p + 1) 3) = c)) ∧
    (find (firstLine s.body) ' ' = none →
      deliver url s = ⟨-1, url, false, msgNoStatusLine⟩) ∧
    (∀ p, find (firstLine s.body) ' ' = some p →
      (strToUInt (substr (firstLine s.body) (p + 1) 3) = 0 ∨
        strToUInt (substr (firstLine s.body) (p + 1) 3) > 999) →
      deliver url s = ⟨-1, url, false, msgInvalidCode⟩) ∧
    (∀ (version tail : Str) (d1 d2 d3 : Char), ' ' ∉ version →
      isdigit d1 = true → isdigit d2 = true → isdigit d3 = true →
      firstLine s.body = version ++ ' ' :: d1 :: d2 :: d3 :: tail →
      1 ≤ codeValue d1 d2 d3 →
      (deliver url s).status = codeValue d1 d2 d3) := by
  rw [deliver_clean url s hto htl hexit, parseResponse_of_firstLine url s.body hne]
  refine ⟨?_, ?_, ?_, ?_⟩
  · intro c hc1 hc2
    cases hf : find (firstLine s.body) ' ' with
    | none => simp only [parseStatusLine, hf]; simp
    | some p =>
      simp only [parseStatusLine, hf]
      split_ifs with ha hb hc
      · simp; omega
      · simp
      · simp
      · simp
  · intro hf
    simp only [parseStatusLine, hf]
  · intro p hf hbad
    simp only [parseStatusLine, hf, hbad, if_true]
  · intro version tail d1 d2 d3 hv h1 h2 h3 hline hc1
    rw [hline, parseStatusLine_three_digits url s.body version tail _ d1 d2 d3 hv h1 h2 h3 hc1]
    split_ifs <;> rfl

/-- C5 fails as stated: the second token of `HTTP/1.1 2000 OK` has four
digits and the result is status 200; the second token of `HTTP/1.1 5 OK` has
one digit and the result is status 5. -/
theorem C5_counterexample :
    firstLine "HTTP/1.1 2000 OK\n\n".toList = "HTTP/1.1 2000 OK".toList ∧
    tokens "HTTP/1.1 2000 OK".toList [] = ["HTTP/1.1".toList, "2000".toList, "OK".toList] ∧
    deliver "u".toList (cleanExit "HTTP/1.1 2000 OK\n\n".toList)
      = ⟨200, "u".toList, false, []⟩ ∧
    tokens "HTTP/1.1 5 OK".toList [] = ["HTTP/1.1".toList, "5".toList, "OK".toList] ∧
    deliver "u".toList (cleanExit "HTTP/1.1 5 OK\n\n".toList)
      = ⟨5, "u".toList, false, msgNoStatusMessage⟩ := by
  decide

/-- C5 (amended) at the first line `HTTP/1.1 301 Moved`. -/
theorem C5_status_line_witness :
    (deliver "u".toList (cleanExit "HTTP/1.1 301 Moved\r\n\r\n".toList)).status = 301 :=
  (C5_status_line "u".toList (cleanExit "HTTP/1.1 301 Moved\r\n\r\n".toList) rfl rfl rfl
    (by decide)).2.2.2 "HTTP/1.1".toList " Moved".toList '3' '0' '1' (by decide) (by decide)
    (by decide) (by decide) (by decide) (by decide)

theorem loopInv_post {s : Locals} (h : LoopInv s) : LoopPost s := by
  obtain ⟨h1, h2, h3⟩ := h
  refine ⟨?_, ?_, s.body, [], by simp, h1⟩
  · simp [h2]; omega
  · simp [h2]

theorem readStdout_unreadable (t : Nat) (ev : PollEvent) (s : Locals)
    (h : ev.stdoutReadable = false) : readStdout t ev s = .next s := by
  simp [readStdout, h]

theorem readStdout_error (t : Nat) (ev : PollEvent) (s : Locals)
    (h : ev.stdoutReadable = true) (hb : ev.stdoutRead = .error) :
    readStdout t ev s = .done s := by
  simp [readStdout, h, hb]

theorem readStdout_empty (t : Nat) (ev : PollEvent) (s : Locals) (b : Str)
    (h : ev.stdoutReadable = true) (hb : ev.stdoutRead = .bytes b) (h0 : ¬ b.length > 0) :
    readStdout t ev s =
      if s.body.length > CURL_MAX_MESSAGE_LENGTH then
        .done { s with killed := true, tooLong := true }
      else .next s := by
  unfold readStdout
  rw [if_pos h]
  simp only [hb]
  rw [if_neg h0]

theorem readStdout_bytes (t : Nat) (ev : PollEvent) (s : Locals) (b : Str)
    (h : ev.stdoutReadable = true) (hb : ev.stdoutRead = .bytes b) (h0 : b.length > 0) :
    readStdout t ev s =
      if (s.body ++ b).length > CURL_MAX_MESSAGE_LENGTH then
        .done { s with body := s.body ++ b,
                       timesOutAt := (ev.nowAfterRead + t * 1000) % 2 ^ 64,
                       killed := true, tooLong := true }
      else .next { s with body := s.body ++ b,
                          timesOutAt := (ev.nowAfterRead + t * 1000) % 2 ^ 64 } := by
  unfold readStdout
  rw [if_pos h]
  simp only [hb]
  rw [if_pos h0]

theorem readStdout_next {t : Nat} {ev : PollEvent} {s s1 : Locals}
    (h : readStdout t ev s = .next s1) (hi : LoopInv s) :
    LoopInv s1 ∧ s1.pid = s.pid ∧ s1.exitCode = s.exitCode ∧ s1.killed = s.killed ∧
      s.body.length ≤ s1.body.length ∧
      (s1.body.length = s.body.length → s1 = s) := by
  by_cases hr : ev.stdoutReadable = true
  · cases hb : ev.stdoutRead with
    | error => rw [readStdout_error t ev s hr hb] at h; cases h
    | bytes b =>
      by_cases hb0 : b.length > 0
      · rw [readStdout_bytes t ev s b hr hb hb0] at h
        split_ifs at h with hlen
        simp only [Step.next.injEq] at h
        subst h
        refine ⟨⟨by simpa using hlen, hi.2.1, hi.2.2⟩, rfl, rfl, rfl, by simp, ?_⟩
        intro he; simp only [List.length_append] at he; omega
      · rw [readStdout_empty t ev s b hr hb hb0] at h
        split_ifs at h with hlen
        simp only [Step.next.injEq] at h
        subst h
        exact ⟨hi, rfl, rfl, rfl, le_refl _, fun _ => rfl⟩
  · rw [readStdout_unreadable t ev s (by simpa using hr)] at h
    simp only [Step.next.injEq] at h
    subst h
    exact ⟨hi, rfl, rfl, rfl, le_refl _, fun _ => rfl⟩

theorem readStdout_done {t : Nat} {ev : PollEvent} {s s1 : Locals}
    (h : readStdout t ev s = .done s1) (hi : LoopInv s) :
    LoopPost s1 ∧ s1.exitCode = s.exitCode ∧ s1.pid = s.pid ∧ s1.timedOut = false := by
  by_cases hr : ev.stdoutReadable = true
  · cases hb : ev.stdoutRead with
    | error =>
      rw [readStdout_error t ev s hr hb] at h
      simp only [Step.done.injEq] at h
      subst h
      exact ⟨(loopInv_post hi), rfl, rfl, hi.2.2⟩
    | bytes b =>
      by_cases hb0 : b.length > 0
      · rw [readStdout_bytes t ev s b hr hb hb0] at h
        split_ifs at h with hlen
        simp only [Step.done.injEq] at h
        subst h
        exact ⟨⟨by simpa using hlen, fun _ => hi.2.2, s.body, b, rfl, hi.1⟩, rfl, rfl, hi.2.2⟩
      · rw [readStdout_empty t ev s b hr hb hb0] at h
        split_ifs at h with hlen
        have := hi.1
        omega
  · rw [readStdout_unreadable t ev s (by simpa using hr)] at h
    cases h

theorem readStdout_not_exited (t : Nat) (ev : PollEvent) (s s1 : Locals) :
    readStdout t ev s ≠ .exited s1 := by
  by_cases hr : ev.stdoutReadable = true
  · cases hb : ev.stdoutRead with
    | error => rw [readStdout_error t ev s hr hb]; simp
    | bytes b =>
      by_cases hb0 : b.length > 0
      · rw [readStdout_bytes t ev s b hr hb hb0]; split_ifs <;> simp
      · rw [readStdout_empty t ev s b hr hb hb0]; split_ifs <;> simp
  · rw [readStdout_unreadable t ev s (by simpa using hr)]; simp

theorem pollStep_next {t : Nat} {ev : PollEvent} {s s1 : Locals}
    (h : pollStep t ev s = .next s1) :
    readStdout t ev s = .next s1 ∧ (ev.stdoutErr || ev.stderrErr) = false ∧
      ¬ ev.nowAtCheck ≥ s1.timesOutAt ∧ ev.waitNoHang = none := by
  cases hrs : readStdout t ev s with
  | done s2 => simp [pollStep, hrs] at h
  | exited s2 => exact absurd hrs (readStdout_not_exited t ev s s2)
  | next s2 =>
    simp only [pollStep, hrs] at h
    split_ifs at h with he hd
    cases hw : ev.waitNoHang with
    | some st => simp [hw] at h
    | none =>
      simp only [hw, Step.next.injEq] at h
      subst h
      exact ⟨rfl, by simpa using he, hd, rfl⟩

theorem pollStep_exited {t : Nat} {ev : PollEvent} {s s1 : Locals}
    (h : pollStep t ev s = .exited s1) :
    ∃ s2 status, readStdout t ev s = .next s2 ∧ (ev.stdoutErr || ev.stderrErr) = false ∧
      ¬ ev.nowAtCheck ≥ s2.timesOutAt ∧ ev.waitNoHang = some status ∧
      s1 = { s2 with exitCode := status } := by
  cases hrs : readStdout t ev s with
  | done s2 => simp [pollStep, hrs] at h
  | exited s2 => exact absurd hrs (readStdout_not_exited t ev s s2)
  | next s2 =>
    simp only [pollStep, hrs] at h
    split_ifs at h with he hd
    cases hw : ev.waitNoHang with
    | none => simp [hw] at h
    | some st =>
      simp only [hw, Step.exited.injEq] at h
      exact ⟨s2, st, rfl, by simpa using he, hd, rfl, h.symm⟩

theorem pollStep_done {t : Nat} {ev : PollEvent} {s s1 : Locals}
    (h : pollStep t ev s = .done s1) :
    readStdout t ev s = .done s1 ∨
    (readStdout t ev s = .next s1 ∧ (ev.stdoutErr || ev.stderrErr) = true) ∨
    (∃ s2, readStdout t ev s = .next s2 ∧ (ev.stdoutErr || ev.stderrErr) = false ∧
      ev.nowAtCheck ≥ s2.timesOutAt ∧ s1 = { s2 with killed := true, timedOut := true }) := by
  cases hrs : readStdout t ev s with
  | done s2 =>
    simp only [pollStep, hrs, Step.done.injEq] at h
    left; rw [h]
  | exited s2 => exact absurd hrs (readStdout_not_exited t ev s s2)
  | next s2 =>
    simp only [pollStep, hrs] at h
    split_ifs at h with he hd
    · simp only [Step.done.injEq] at h
      right; left; exact ⟨by rw [h], he⟩
    · simp only [Step.done.injEq] at h
      right; right; exact ⟨s2, rfl, by simpa using he, hd, h.symm⟩
    · cases hw : ev.waitNoHang with
      | none => simp [hw] at h
      | some st => simp [hw] at h

theorem drainLoop_post (rd : Nat → ReadResult) (fuel k : Nat) (s s2 : Locals)
    (hi : LoopInv s) (h : drainLoop rd fuel k s = some s2) :
    LoopPost s2 ∧ s2.exitCode = s.exitCode ∧ s2.timedOut = false ∧ s2.pid = s.pid ∧
      s2.killed = s.killed := by
  induction fuel generalizing k s with
  | zero => simp [drainLoop] at h
  | succ fuel ih =>
    unfold drainLoop at h
    cases hr : rd k with
    | error =>
      simp only [hr, Option.some.injEq] at h
      subst h
      exact ⟨(loopInv_post hi), rfl, hi.2.2, rfl, rfl⟩
    | bytes b =>
      simp only [hr] at h
      split_ifs at h with h0 hlen
      · simp only [Option.some.injEq] at h
        subst h
        exact ⟨(loopInv_post hi), rfl, hi.2.2, rfl, rfl⟩
      · simp only [Option.some.injEq] at h
        subst h
        exact ⟨⟨by simpa using hlen, fun _ => hi.2.2, s.body, b, rfl, hi.1⟩, rfl, hi.2.2,
          rfl, rfl⟩
      · exact ih (k + 1) { s with body := s.body ++ b }
          ⟨by simpa using hlen, hi.2.1, hi.2.2⟩ h

theorem drainLoop_overflow (rd : Nat → ReadResult) (fuel k : Nat) (s : Locals) (b : Str)
    (hs : s.body.length ≤ CURL_MAX_MESSAGE_LENGTH) (hr : rd k = .bytes b)
    (hlen : (s.body ++ b).length > CURL_MAX_MESSAGE_LENGTH) :
    drainLoop rd (fuel + 1) k s = some { s with body := s.body ++ b, tooLong := true } := by
  have hb0 : ¬ b.length ≤ 0 := by
    simp only [List.length_append] at hlen
    omega
  unfold drainLoop
  simp only [hr, if_neg hb0, if_pos hlen]

theorem drainLoop_terminates (rd : Nat → ReadResult) (fuel k : Nat) (s : Locals)
    (hi : s.body.length ≤ CURL_MAX_MESSAGE_LENGTH)
    (hf : CURL_MAX_MESSAGE_LENGTH + 2 ≤ fuel + s.body.length) :
    ∃ s2, drainLoop rd fuel k s = some s2 := by
  induction fuel generalizing k s with
  | zero =>
    omega
  | succ fuel ih =>
    unfold drainLoop
    cases hr : rd k with
    | error => exact ⟨s, rfl⟩
    | bytes b =>
      simp only
      split_ifs with h0 hlen
      · exact ⟨s, rfl⟩
      · exact ⟨_, rfl⟩
      · apply ih
        · simpa using hlen
        · simp only [List.length_append]
          omega


theorem drainLoop_mono (rd : Nat → ReadResult) (fuel k : Nat) (s s2 : Locals)
    (h : drainLoop rd fuel k s = some s2) (extra : Nat) :
    drainLoop rd (fuel + extra) k s = some s2 := by
  induction fuel generalizing k s with
  | zero => simp [drainLoop] at h
  | succ fuel ih =>
    rw [Nat.add_right_comm]
    unfold drainLoop at h ⊢
    cases hr : rd k with
    | error => simpa [hr] using h
    | bytes b =>
      simp only [hr] at h ⊢
      split_ifs at h ⊢ with h0 hlen
      · exact h
      · exact h
      · exact ih _ _ h

theorem pollLoop_mono (t : Nat) (env : Env) (fuel i : Nat) (s s2 : Locals)
    (h : pollLoop t env fuel i s = some s2) (extra : Nat) :
    pollLoop t env (fuel + extra) i s = some s2 := by
  induction fuel generalizing i s with
  | zero => simp [pollLoop] at h
  | succ fuel ih =>
    rw [Nat.add_right_comm]
    unfold pollLoop at h ⊢
    cases hp : pollStep t (env.poll i) s with
    | next s1 =>
      simp only [hp] at h ⊢
      exact ih _ _ h
    | done s1 => simpa [hp] using h
    | exited s1 =>
      simp only [hp, Option.map_eq_some'] at h ⊢
      obtain ⟨a, ha, hb⟩ := h
      exact ⟨a, drainLoop_mono _ _ _ _ _ ha extra, hb⟩

theorem pollLoop_mono_le (t : Nat) (env : Env) (fuel fuel2 i : Nat) (s s2 : Locals)
    (h : pollLoop t env fuel i s = some s2) (hle : fuel ≤ fuel2) :
    pollLoop t env fuel2 i s = some s2 := by
  obtain ⟨e, rfl⟩ := Nat.exists_eq_add_of_le hle
  exact pollLoop_mono t env fuel i s s2 h e

/-- What the loop leaves behind, from any iteration whose start satisfies the invariant. -/
theorem pollLoop_post (t : Nat) (env : Env) (fuel i : Nat) (s s2 : Locals)
    (hi : LoopInv s) (h : pollLoop t env fuel i s = some s2) : LoopPost s2 := by
  induction fuel generalizing i s with
  | zero => simp [pollLoop] at h
  | succ fuel ih =>
    unfold pollLoop at h
    cases hp : pollStep t (env.poll i) s with
    | next s1 =>
      simp only [hp] at h
      exact ih _ _ (readStdout_next (pollStep_next hp).1 hi).1 h
    | done s1 =>
      simp only [hp, Option.some.injEq] at h
      subst h
      rcases pollStep_done hp with h1 | ⟨h1, _⟩ | ⟨s3, h1, _, _, rfl⟩
      · exact (readStdout_done h1 hi).1
      · exact loopInv_post (readStdout_next h1 hi).1
      · have hi3 := (readStdout_next h1 hi).1
        obtain ⟨a, b, c⟩ := hi3
        refine ⟨?_, fun htl => ?_, s3.body, [], by simp, a⟩
        · simp [b]; exact a
        · simp [b] at htl
    | exited s1 =>
      simp only [hp, Option.map_eq_some'] at h
      obtain ⟨a, ha, rfl⟩ := h
      obtain ⟨s3, st, h1, _, _, _, rfl⟩ := pollStep_exited hp
      have hi3 := (readStdout_next h1 hi).1
      have hi4 : LoopInv { s3 with exitCode := st } := hi3
      exact (drainLoop_post _ _ _ _ a hi4 ha).1

theorem initLocals_inv (req : Request) (env : Env) : LoopInv (initLocals req env) :=
  ⟨Nat.zero_le _, rfl, rfl⟩

theorem localsAt_succ {req : Request} {env : Env} {k : Nat} {s1 : Locals}
    (h : localsAt req env (k + 1) = some s1) :
    ∃ s, localsAt req env k = some s ∧ pollStep req.timeout (env.poll k) s = .next s1 := by
  unfold localsAt at h
  cases hk : localsAt req env k with
  | none => simp [hk] at h
  | some s =>
    simp only [hk] at h
    cases hp : pollStep req.timeout (env.poll k) s with
    | next s2 =>
      simp only [hp, Option.some.injEq] at h
      subst h
      exact ⟨s, rfl, hp⟩
    | done s2 => simp [hp] at h
    | exited s2 => simp [hp] at h

theorem localsAt_inv (req : Request) (env : Env) (k : Nat) (s : Locals)
    (h : localsAt req env k = some s) : LoopInv s := by
  induction k generalizing s with
  | zero =>
    simp only [localsAt, Option.some.injEq] at h
    subst h
    exact initLocals_inv req env
  | succ k ih =>
    obtain ⟨s0, h0, hp⟩ := localsAt_succ h
    exact (readStdout_next (pollStep_next hp).1 (ih s0 h0)).1

theorem pollLoop_localsAt (req : Request) (env : Env) (k f : Nat) (s : Locals)
    (h : localsAt req env k = some s) :
    pollLoop req.timeout env (k + f) 0 (initLocals req env) = pollLoop req.timeout env f k s := by
  induction k generalizing s f with
  | zero =>
    simp only [localsAt, Option.some.injEq] at h
    subst h
    simp
  | succ k ih =>
    obtain ⟨s0, h0, hp⟩ := localsAt_succ h
    have e : k + 1 + f = k + (f + 1) := by omega
    rw [e, ih (f + 1) s0 h0]
    conv => lhs; unfold pollLoop
    simp only [hp]

theorem readStdout_deadline (req : Request) (env : Env) (k : Nat) (s s1 : Locals)
    (hd : s.timesOutAt = (lastProgress env k + req.timeout * 1000) % 2 ^ 64)
    (h : readStdout req.timeout (env.poll k) s = .next s1) :
    s1.timesOutAt = (lastProgress env (k + 1) + req.timeout * 1000) % 2 ^ 64 := by
  by_cases hr : (env.poll k).stdoutReadable = true
  · cases hb : (env.poll k).stdoutRead with
    | error => rw [readStdout_error _ _ s hr hb] at h; cases h
    | bytes b =>
      by_cases hb0 : b.length > 0
      · rw [readStdout_bytes _ _ s b hr hb hb0] at h
        split_ifs at h with hlen
        simp only [Step.next.injEq] at h
        subst h
        simp [lastProgress, hr, hb, hb0]
      · rw [readStdout_empty _ _ s b hr hb hb0] at h
        split_ifs at h with hlen
        simp only [Step.next.injEq] at h
        subst h
        simp only [lastProgress, hr, hb, hb0, if_true, if_false]
        exact hd
  · rw [readStdout_unreadable _ _ s (by simpa using hr)] at h
    simp only [Step.next.injEq] at h
    subst h
    simp only [lastProgress, hr, if_false]
    exact hd

theorem localsAt_deadline (req : Request) (env : Env) (k : Nat) (s : Locals)
    (h : localsAt req env k = some s) :
    s.timesOutAt = (lastProgress env k + req.timeout * 1000) % 2 ^ 64 := by
  induction k generalizing s with
  | zero =>
    simp only [localsAt, Option.some.injEq] at h
    subst h
    rfl
  | succ k ih =>
    obtain ⟨s0, h0, hp⟩ := localsAt_succ h
    exact readStdout_deadline req env k s0 s (ih s0 h0) (pollStep_next hp).1

theorem parseStatusLine_shape (url body front : Str) (idx : Nat) :
    (parseStatusLine url body idx front).url = url ∧
    (parseStatusLine url body idx front).flag = false ∧
    (((parseStatusLine url body idx front).status = -1 ∧
        ((parseStatusLine url body idx front).text = msgNoStatusLine ∨
         (parseStatusLine url body idx front).text = msgInvalidCode)) ∨
      (1 ≤ (parseStatusLine url body idx front).status ∧
        (parseStatusLine url body idx front).status ≤ 999)) := by
  unfold parseStatusLine
  cases find front ' ' with
  | none => simp
  | some p =>
    simp only
    split_ifs with h1 h2 h3
    · simp
    · refine ⟨rfl, rfl, Or.inr ?_⟩; simp; omega
    · refine ⟨rfl, rfl, Or.inr ?_⟩; simp; omega
    · refine ⟨rfl, rfl, Or.inr ?_⟩; simp; omega

theorem parseResponse_shape (url body : Str) :
    (parseResponse url body).url = url ∧
    (parseResponse url body).flag = false ∧
    (((parseResponse url body).status = -1 ∧
        ((parseResponse url body).text = msgEmptyResponse ∨
         (parseResponse url body).text = msgNoStatusLine ∨
         (parseResponse url body).text = msgInvalidCode)) ∨
      (1 ≤ (parseResponse url body).status ∧ (parseResponse url body).status ≤ 999)) := by
  unfold parseResponse
  simp only
  cases (scanHeaders body [] [] 0).1 with
  | nil => simp
  | cons front tl =>
    simp only
    split_ifs with h0
    · simp
    · obtain ⟨a, b, c⟩ := parseStatusLine_shape url body front (scanHeaders body [] [] 0).2
      refine ⟨a, b, ?_⟩
      rcases c with ⟨c1, c2⟩ | c
      · left; exact ⟨c1, Or.inr c2⟩
      · right; exact c

theorem deliver_shape (url : Str) (s : Locals) :
    (deliver url s).url = url ∧ (deliver url s).flag = false ∧
    ((deliver url s).status = -1 ∨
      (1 ≤ (deliver url s).status ∧ (deliver url s).status ≤ 999)) := by
  unfold deliver
  split_ifs
  · simp
  · simp
  · simp
  · obtain ⟨a, b, c⟩ := parseResponse_shape url s.body
    exact ⟨a, b, c.imp (fun h => h.1) id⟩

theorem deliver_timedOut (url : Str) (s : Locals) :
    deliver url s = ⟨-1, url, false, msgTimedOut⟩ ↔ s.timedOut = true := by
  constructor
  · intro h
    by_contra hto
    unfold deliver at h
    rw [if_neg hto] at h
    split_ifs at h with h1 h2
    · have := congrArg HandlerCall.text h
      simp only at this
      revert this; decide
    · have := congrArg HandlerCall.text h
      simp only at this
      revert this; decide
    · obtain ⟨_, _, c⟩ := parseResponse_shape url s.body
      rw [h] at c
      simp only at c
      revert c
      decide
  · intro h
    simp [deliver, h]

theorem deliver_tooLong (url : Str) (s : Locals) (h1 : s.timedOut = false)
    (h2 : s.tooLong = true) : deliver url s = ⟨-1, url, false, msgTooLong⟩ := by
  simp [deliver, h1, h2]

theorem reap_fields (env : Env) (s : Locals) :
    (reap env s).body = s.body ∧ (reap env s).timedOut = s.timedOut ∧
    (reap env s).tooLong = s.tooLong ∧ (reap env s).killed = s.killed ∧
    (s.pid = 0 → reap env s = s) := by
  unfold reap
  split_ifs with hp
  · cases env.waitBlocking with
    | none => exact ⟨rfl, rfl, rfl, rfl, fun _ => rfl⟩
    | some st => exact ⟨rfl, rfl, rfl, rfl, fun h => by omega⟩
  · exact ⟨rfl, rfl, rfl, rfl, fun _ => rfl⟩

theorem handlerCalls_append (a b : List Action) :
    handlerCalls (a ++ b) = handlerCalls a ++ handlerCalls b := by
  induction a with
  | nil => rfl
  | cons x xs ih => cases x <;> simp [handlerCalls, ih]

theorem parentTrace_returns (req : Request) (env : Env) (s : Locals)
    (hw : s.pid > 0 → waitReturns env s = true) :
    handlerCalls (parentTrace req env s) = [deliver req.url (reap env s)] ∧
    Action.hang ∉ parentTrace req env s ∧
    (Action.kill ∈ parentTrace req env s ↔ s.killed = true) := by
  have hc : ¬ (s.pid > 0 ∧ waitReturns env s = false) := by
    rintro ⟨a, b⟩
    rw [hw a] at b
    cases b
  unfold parentTrace
  rw [if_neg hc]
  cases hk : s.killed <;> by_cases hp : s.pid > 0 <;> simp [handlerCalls, hp]

theorem parentTrace_blocked (req : Request) (env : Env) (s : Locals)
    (hp : s.pid > 0) (hw : waitReturns env s = false) :
    handlerCalls (parentTrace req env s) = [] ∧ Action.hang ∈ parentTrace req env s := by
  have hc : s.pid > 0 ∧ waitReturns env s = false := ⟨hp, hw⟩
  unfold parentTrace
  rw [if_pos hc]
  cases hk : s.killed <;> simp [handlerCalls]

theorem threadMain_parent_eq (req : Request) (env : Env) (fuel : Nat)
    (hex : ∃ p ∈ CURL_PATHS, env.fileExists p = true) (hurl : req.url ≠ [])
    (hfork : env.forkResult > 0) :
    threadMain req env fuel =
      (pollLoop req.timeout env fuel 0 (initLocals req env)).map (parentTrace req env) := by
  have h1 := curlPath_length_pos env.fileExists hex
  have h2 : req.url.length ≠ 0 := fun e => hurl (List.length_eq_zero.mp e)
  have h3 : ¬ env.forkResult < 0 := by omega
  simp only [threadMain, h1, h2, h3, hfork, if_false, if_true]

theorem deliver_reap_tooLong (env : Env) (url : Str) (s : Locals) (h1 : s.timedOut = false)
    (h2 : s.tooLong = true) : deliver url (reap env s) = ⟨-1, url, false, msgTooLong⟩ := by
  obtain ⟨_, r2, r3, _, _⟩ := reap_fields env s
  exact deliver_tooLong _ _ (by rw [r2]; exact h1) (by rw [r3]; exact h2)

/-- C7: size ceiling.  (1) Whenever the loop is left with more than
`CURL_MAX_MESSAGE_LENGTH` bytes collected, the handler receives -1 with
"response too long", and the buffer was within the limit before the last read
(nothing is read after the limit is passed).  (2) When a read of the `select`
loop takes the buffer past the limit in iteration `k`, the loop is left in
that iteration with exactly these bytes, the child is killed and the result is
"response too long".  (3) When a read of the drain loop takes the buffer past
the limit, the drain loop stops there with `tooLong` set. -/
theorem C7_size_ceiling (req : Request) (env : Env) :
    (∀ fuel s, pollLoop req.timeout env fuel 0 (initLocals req env) = some s →
      s.body.length > CURL_MAX_MESSAGE_LENGTH →
      deliver req.url (reap env s) = ⟨-1, req.url, false, msgTooLong⟩ ∧
      ∃ pre chunk, s.body = pre ++ chunk ∧ pre.length ≤ CURL_MAX_MESSAGE_LENGTH) ∧
    (∀ k s b, localsAt req env k = some s → (env.poll k).stdoutReadable = true →
      (env.poll k).stdoutRead = .bytes b →
      (s.body ++ b).length > CURL_MAX_MESSAGE_LENGTH →
      ∀ fuel, k < fuel →
        ∃ s2, pollLoop req.timeout env fuel 0 (initLocals req env) = some s2 ∧
          s2.body = s.body ++ b ∧ s2.killed = true ∧
          deliver req.url (reap env s2) = ⟨-1, req.url, false, msgTooLong⟩) ∧
    (∀ (rd : Nat → ReadResult) (fuel k : Nat) (s : Locals) (b : Str),
      s.body.length ≤ CURL_MAX_MESSAGE_LENGTH → rd k = .bytes b →
      (s.body ++ b).length > CURL_MAX_MESSAGE_LENGTH →
      drainLoop rd (fuel + 1) k s = some { s with body := s.body ++ b, tooLong := true }) := by
  refine ⟨?_, ?_, ?_⟩
  · intro fuel s h hlen
    obtain ⟨p1, p2, p3⟩ := pollLoop_post _ _ _ _ _ _ (initLocals_inv req env) h
    have htl := p1.mpr hlen
    exact ⟨deliver_reap_tooLong _ _ _ (p2 htl) htl, p3⟩
  · intro k s b hs hr hb hlen fuel hk
    have hi := localsAt_inv req env k s hs
    have hb0 : b.length > 0 := by
      have := hi.1
      simp only [List.length_append] at hlen
      omega
    obtain ⟨f, rfl⟩ : ∃ f, fuel = k + (f + 1) := ⟨fuel - k - 1, by omega⟩
    rw [pollLoop_localsAt req env k (f + 1) s hs]
    refine ⟨{ s with body := s.body ++ b,
                     timesOutAt := ((env.poll k).nowAfterRead + req.timeout * 1000) % 2 ^ 64,
                     killed := true, tooLong := true }, ?_, rfl, rfl, ?_⟩
    · unfold pollLoop
      simp only [pollStep, readStdout_bytes _ _ s b hr hb hb0, if_pos hlen]
    · exact deliver_reap_tooLong _ _ _ hi.2.2 rfl
  · intro rd fuel k s b hs hr hlen
    exact drainLoop_overflow rd fuel k s b hs hr hlen

theorem pollLoop_next (t : Nat) (env : Env) (fuel i : Nat) (s s1 : Locals)
    (h : pollStep t (env.poll i) s = .next s1) :
    pollLoop t env (fuel + 1) i s = pollLoop t env fuel (i + 1) s1 := by
  conv => lhs; unfold pollLoop
  simp only [h]

theorem pollLoop_done (t : Nat) (env : Env) (fuel i : Nat) (s s1 : Locals)
    (h : pollStep t (env.poll i) s = .done s1) :
    pollLoop t env (fuel + 1) i s = some s1 := by
  conv => lhs; unfold pollLoop
  simp only [h]

theorem pollLoop_exited (t : Nat) (env : Env) (fuel i : Nat) (s s1 : Locals)
    (h : pollStep t (env.poll i) s = .exited s1) :
    pollLoop t env (fuel + 1) i s =
      (drainLoop env.drain fuel 0 s1).map (fun s2 => { s2 with pid := 0 }) := by
  conv => lhs; unfold pollLoop
  simp only [h]

theorem localsAt_next (req : Request) (env : Env) (k : Nat) (s s1 : Locals)
    (h0 : localsAt req env k = some s)
    (hp : pollStep req.timeout (env.poll k) s = .next s1) :
    localsAt req env (k + 1) = some s1 := by
  unfold localsAt
  simp only [h0, hp]

/-- With a clock that goes on, the `select` loop is left from every iteration
it gets to. -/
theorem pollLoop_terminates (req : Request) (env : Env) (hclock : ClockAdvances req env)
    (m : Nat) :
    ∀ i s, localsAt req env i = some s →
      CURL_MAX_MESSAGE_LENGTH + 1 - s.body.length ≤ m →
      ∃ fuel s2, pollLoop req.timeout env fuel i s = some s2 := by
  induction m with
  | zero =>
    intro i s h0 hm
    have := (localsAt_inv req env i s h0).1
    omega
  | succ m ihm =>
    have inner : ∀ d i (s : Locals), localsAt req env i = some s →
        CURL_MAX_MESSAGE_LENGTH + 1 - s.body.length ≤ m + 1 →
        s.timesOutAt ≤ (env.poll (i + d)).nowAtCheck →
        ∃ fuel s2, pollLoop req.timeout env fuel i s = some s2 := by
      intro d
      induction d with
      | zero =>
        intro i s h0 hm hd
        have hi := localsAt_inv req env i s h0
        cases hp : pollStep req.timeout (env.poll i) s with
        | done s1 => exact ⟨1, s1, pollLoop_done _ env 0 i s s1 hp⟩
        | exited s1 =>
          obtain ⟨s3, st, h1, _, _, _, rfl⟩ := pollStep_exited hp
          have hi3 := (readStdout_next h1 hi).1
          obtain ⟨a, ha⟩ := drainLoop_terminates env.drain (CURL_MAX_MESSAGE_LENGTH + 2) 0
            { s3 with exitCode := st } hi3.1 (by omega)
          exact ⟨CURL_MAX_MESSAGE_LENGTH + 2 + 1, _, by
            rw [pollLoop_exited _ env _ i s _ hp, ha]; rfl⟩
        | next s1 =>
          obtain ⟨h1, _, h3, _⟩ := pollStep_next hp
          obtain ⟨hi1, _, _, _, hle, heq⟩ := readStdout_next h1 hi
          by_cases hlen : s1.body.length = s.body.length
          · have := heq hlen
            subst this
            exact absurd hd h3
          · obtain ⟨f, s2, hf⟩ := ihm (i + 1) s1 (localsAt_next req env i s s1 h0 hp) (by omega)
            exact ⟨f + 1, s2, by rw [pollLoop_next _ env f i s s1 hp]; exact hf⟩
      | succ d ihd =>
        intro i s h0 hm hd
        have hi := localsAt_inv req env i s h0
        cases hp : pollStep req.timeout (env.poll i) s with
        | done s1 => exact ⟨1, s1, pollLoop_done _ env 0 i s s1 hp⟩
        | exited s1 =>
          obtain ⟨s3, st, h1, _, _, _, rfl⟩ := pollStep_exited hp
          have hi3 := (readStdout_next h1 hi).1
          obtain ⟨a, ha⟩ := drainLoop_terminates env.drain (CURL_MAX_MESSAGE_LENGTH + 2) 0
            { s3 with exitCode := st } hi3.1 (by omega)
          exact ⟨CURL_MAX_MESSAGE_LENGTH + 2 + 1, _, by
            rw [pollLoop_exited _ env _ i s _ hp, ha]; rfl⟩
        | next s1 =>
          obtain ⟨h1, _, h3, _⟩ := pollStep_next hp
          obtain ⟨hi1, _, _, _, hle, heq⟩ := readStdout_next h1 hi
          have hn := localsAt_next req env i s s1 h0 hp
          by_cases hlen : s1.body.length = s.body.length
          · have := heq hlen
            subst this
            have e : i + (d + 1) = i + 1 + d := by omega
            rw [e] at hd
            obtain ⟨f, s2, hf⟩ := ihd (i + 1) s1 hn hm hd
            exact ⟨f + 1, s2, by rw [pollLoop_next _ env f i s1 s1 hp]; exact hf⟩
          · obtain ⟨f, s2, hf⟩ := ihm (i + 1) s1 hn (by omega)
            exact ⟨f + 1, s2, by rw [pollLoop_next _ env f i s s1 hp]; exact hf⟩
    intro i s h0 hm
    obtain ⟨j, hj, hjt⟩ := hclock i s h0
    rw [← localsAt_deadline req env i s h0] at hjt
    obtain ⟨d, rfl⟩ := Nat.exists_eq_add_of_le hj
    exact inner d i s h0 hm hjt

/-- What holds in the parent (`vfork` did not return 0) for every request and
every environment.  (1) A run that comes to its end without staying blocked in
the `waitpid` of line 219 invokes the handler exactly once, with a status that
is -1 or lies in 1..999, the URL of the request and the flag `false`.  (2) A
run that stays blocked there invokes no handler at all.  (3) When the clock
goes on (`ClockAdvances`), the run comes to its end from some amount of fuel
on, and it does not stay blocked when the child exits by itself. -/
theorem handler_once_unless_blocked (req : Request) (env : Env)
    (hparent : env.forkResult ≠ 0) :
    (∀ fuel t, threadMain req env fuel = some t → Action.hang ∉ t →
      ∃ c, handlerCalls t = [c] ∧ (c.status = -1 ∨ (1 ≤ c.status ∧ c.status ≤ 999)) ∧
        c.url = req.url ∧ c.flag = false) ∧
    (∀ fuel t, threadMain req env fuel = some t → Action.hang ∈ t → handlerCalls t = []) ∧
    (ClockAdvances req env → ∃ N, ∀ fuel, N ≤ fuel →
      ∃ t, threadMain req env fuel = some t ∧ (env.childExits = true → Action.hang ∉ t)) := by
  have key : ∀ fuel t, threadMain req env fuel = some t →
      (Action.hang ∉ t ∧ ∃ c, handlerCalls t = [c] ∧
        (c.status = -1 ∨ (1 ≤ c.status ∧ c.status ≤ 999)) ∧ c.url = req.url ∧ c.flag = false) ∨
      (Action.hang ∈ t ∧ handlerCalls t = [] ∧ env.childExits = false) := by
    intro fuel t h
    unfold threadMain at h
    simp only at h
    split_ifs at h with h1 h2 h3 h4
    · simp only [Option.some.injEq] at h; subst h
      exact Or.inl ⟨by simp, _, rfl, Or.inl rfl, rfl, rfl⟩
    · simp only [Option.some.injEq] at h; subst h
      exact Or.inl ⟨by simp, _, rfl, Or.inl rfl, rfl, rfl⟩
    · simp only [Option.some.injEq] at h; subst h
      exact Or.inl ⟨by simp, _, rfl, Or.inl rfl, rfl, rfl⟩
    · simp only [Option.map_eq_some'] at h
      obtain ⟨s, hs, rfl⟩ := h
      by_cases hb : s.pid > 0 ∧ waitReturns env s = false
      · obtain ⟨a, b⟩ := parentTrace_blocked req env s hb.1 hb.2
        have hce : env.childExits = false := by
          have := hb.2
          simp only [waitReturns, Bool.or_eq_false_iff] at this
          exact this.2
        exact Or.inr ⟨b, a, hce⟩
      · have hw : s.pid > 0 → waitReturns env s = true := by
          intro hp
          by_contra hc
          exact hb ⟨hp, by simpa using hc⟩
        obtain ⟨a, b, _⟩ := parentTrace_returns req env s hw
        obtain ⟨x, y, z⟩ := deliver_shape req.url (reap env s)
        exact Or.inl ⟨b, _, a, z, x, y⟩
    all_goals omega
  refine ⟨?_, ?_, ?_⟩
  · intro fuel t h hn
    rcases key fuel t h with ⟨_, hc⟩ | ⟨hh, _⟩
    · exact hc
    · exact absurd hh hn
  · intro fuel t h hh
    rcases key fuel t h with ⟨hn, _⟩ | ⟨_, hc, _⟩
    · exact absurd hh hn
    · exact hc
  · intro hclock
    obtain ⟨f, s2, hf⟩ := pollLoop_terminates req env hclock
      (CURL_MAX_MESSAGE_LENGTH + 1) 0 (initLocals req env) rfl (by omega)
    refine ⟨f, fun fuel hle => ?_⟩
    have hf2 := pollLoop_mono_le _ _ _ _ _ _ _ hf hle
    have hsome : ∃ t, threadMain req env fuel = some t := by
      unfold threadMain
      simp only
      split_ifs with h1 h2 h3 h4
      · exact ⟨_, rfl⟩
      · exact ⟨_, rfl⟩
      · exact ⟨_, rfl⟩
      · exact ⟨_, by rw [hf2]; rfl⟩
      all_goals exact ⟨_, rfl⟩
    obtain ⟨t, ht⟩ := hsome
    refine ⟨t, ht, fun hce hh => ?_⟩
    rcases key fuel t ht with ⟨hn, _⟩ | ⟨_, _, hc⟩
    · exact hn hh
    · rw [hce] at hc
      cases hc

/-- C1, the run on which the code fails it: `select` is interrupted in the
first iteration, the `read` of line 175 returns -1 and line 181 leaves the
loop without a kill; the child never exits, so the `waitpid` of line 219 never
returns and no handler is invoked, with any amount of fuel.  The two other
breaks with a living child (lines 183 and 194) kill it before the wait. -/
theorem C1_blocked_wait :
    interruptedEnv.forkResult ≠ 0 ∧
    threadMain sampleRequest interruptedEnv 1
      = some [.pipe, .pipe, .vfork, .close, .close, .fcntl, .fcntl, .waitpid, .hang] ∧
    handlerCalls [.pipe, .pipe, .vfork, .close, .close, .fcntl, .fcntl, .waitpid, .hang] = [] ∧
    (∀ fuel, 1 ≤ fuel →
      threadMain sampleRequest interruptedEnv fuel = threadMain sampleRequest interruptedEnv 1) := by
  refine ⟨by decide, by decide, by decide, fun fuel hf => ?_⟩
  have h1 : pollLoop sampleRequest.timeout interruptedEnv 1 0
      (initLocals sampleRequest interruptedEnv) = some (initLocals sampleRequest interruptedEnv) := by
    decide
  have h2 := pollLoop_mono_le _ _ _ _ _ _ _ h1 hf
  have hex : ∃ p ∈ CURL_PATHS, interruptedEnv.fileExists p = true :=
    ⟨"/usr/bin/curl".toList, by decide, by decide⟩
  rw [threadMain_parent_eq sampleRequest interruptedEnv fuel hex (by decide) (by decide),
    threadMain_parent_eq sampleRequest interruptedEnv 1 hex (by decide) (by decide), h1, h2]

theorem fullBuf_length : fullBuf.length = 16384 := by
  unfold fullBuf
  exact List.length_replicate _ _

/-- One iteration in `floodEnv`, while the buffer stays within the limit. -/
theorem pollStep_flood (e : Option Nat) (k : Nat) (s : Locals)
    (hlen : s.body.length + 16384 ≤ CURL_MAX_MESSAGE_LENGTH) :
    pollStep sampleRequest.timeout ((floodEnv e).poll k) s =
      if e = some k then
        .exited { s with body := s.body ++ fullBuf, timesOutAt := 30000, exitCode := 256 }
      else .next { s with body := s.body ++ fullBuf, timesOutAt := 30000 } := by
  have hb0 : fullBuf.length > 0 := by rw [fullBuf_length]; omega
  have hl : ¬ (s.body ++ fullBuf).length > CURL_MAX_MESSAGE_LENGTH := by
    rw [List.length_append, fullBuf_length]; omega
  have hr := readStdout_bytes sampleRequest.timeout ((floodEnv e).poll k) s fullBuf rfl rfl hb0
  rw [if_neg hl] at hr
  unfold pollStep
  rw [hr]
  by_cases he : e = some k
  · simp [floodEnv, sampleRequest, he]
  · simp [floodEnv, sampleRequest, he]

theorem flood_localsAt (e : Option Nat) (k : Nat) (hk : k ≤ 4096)
    (he : ∀ j, e = some j → k ≤ j) :
    ∃ s, localsAt sampleRequest (floodEnv e) k = some s ∧ s.body.length = k * 16384 ∧
      s.killed = false ∧ s.timedOut = false ∧ s.tooLong = false := by
  induction k with
  | zero => exact ⟨_, rfl, rfl, rfl, rfl, rfl⟩
  | succ k ih =>
    obtain ⟨s, hs, hlen, h1, h2, h3⟩ := ih (by omega) (fun j hj => by have := he j hj; omega)
    have hne : e ≠ some k := fun h => by have := he k h; omega
    have hstep := pollStep_flood e k s (by simp only [CURL_MAX_MESSAGE_LENGTH]; omega)
    rw [if_neg hne] at hstep
    refine ⟨{ s with body := s.body ++ fullBuf, timesOutAt := 30000 }, ?_, ?_, h1, h2, h3⟩
    · unfold localsAt
      simp only [hs, hstep]
    · simp only [List.length_append, fullBuf_length, hlen]; omega

/-- C7 at a child that writes without pause: the 4097th full buffer takes the
body past the limit, the child is killed and the result is "response too
long". -/
theorem C7_size_ceiling_witness :
    ∃ s, pollLoop sampleRequest.timeout (floodEnv none) 4097 0
        (initLocals sampleRequest (floodEnv none)) = some s ∧
      s.body.length > CURL_MAX_MESSAGE_LENGTH ∧ s.killed = true ∧
      deliver sampleRequest.url (reap (floodEnv none) s)
        = ⟨-1, sampleRequest.url, false, msgTooLong⟩ := by
  obtain ⟨s, hs, hlen, _⟩ := flood_localsAt none 4096 (by omega) (fun j hj => by cases hj)
  have hover : (s.body ++ fullBuf).length > CURL_MAX_MESSAGE_LENGTH := by
    simp only [List.length_append, fullBuf_length, hlen, CURL_MAX_MESSAGE_LENGTH]; omega
  obtain ⟨s2, h1, h2, h3, h4⟩ := (C7_size_ceiling sampleRequest (floodEnv none)).2.1
    4096 s fullBuf hs rfl rfl hover 4097 (by omega)
  exact ⟨s2, h1, by rw [h2]; exact hover, h3, h4⟩

theorem reachesCheck_iff (req : Request) (env : Env) (k : Nat) :
    reachesCheck req env k = true ↔
      ∃ s s1, localsAt req env k = some s ∧
        readStdout req.timeout (env.poll k) s = .next s1 ∧
        ((env.poll k).stdoutErr || (env.poll k).stderrErr) = false := by
  unfold reachesCheck
  cases hk : localsAt req env k with
  | none => simp
  | some s =>
    simp only
    cases hr : readStdout req.timeout (env.poll k) s with
    | next s1 => simp [hr]
    | done s1 => simp [hr]
    | exited s1 => simp [hr]

theorem deliver_reap_timedOut (env : Env) (url : Str) (s : Locals) :
    deliver url (reap env s) = ⟨-1, url, false, msgTimedOut⟩ ↔ s.timedOut = true := by
  rw [deliver_timedOut, (reap_fields env s).2.1]

/-- A run that ends with `timedOut` set went through a deadline check that fired. -/
theorem pollLoop_timedOut (req : Request) (env : Env) (fuel i : Nat) (s0 s : Locals)
    (h0 : localsAt req env i = some s0)
    (h : pollLoop req.timeout env fuel i s0 = some s) (hto : s.timedOut = true) :
    ∃ k, reachesCheck req env k = true ∧
      (env.poll k).nowAtCheck ≥ (lastProgress env (k + 1) + req.timeout * 1000) % 2 ^ 64 := by
  induction fuel generalizing i s0 with
  | zero => simp [pollLoop] at h
  | succ fuel ih =>
    have hi := localsAt_inv req env i s0 h0
    cases hp : pollStep req.timeout (env.poll i) s0 with
    | next s1 =>
      rw [pollLoop_next _ _ _ _ _ _ hp] at h
      have h1 : localsAt req env (i + 1) = some s1 := by
        unfold localsAt
        simp only [h0, hp]
      exact ih (i + 1) s1 h1 h
    | done s1 =>
      rw [pollLoop_done _ _ _ _ _ _ hp] at h
      simp only [Option.some.injEq] at h
      subst h
      rcases pollStep_done hp with h1 | ⟨h1, _⟩ | ⟨s3, h1, h2, h3, _⟩
      · have := (readStdout_done h1 hi).2.2.2
        rw [this] at hto; cases hto
      · have := (readStdout_next h1 hi).1.2.2
        rw [this] at hto; cases hto
      · refine ⟨i, (reachesCheck_iff req env i).mpr ⟨s0, s3, h0, h1, h2⟩, ?_⟩
        rw [← readStdout_deadline req env i s0 s3 (localsAt_deadline req env i s0 h0) h1]
        exact h3
    | exited s1 =>
      rw [pollLoop_exited _ _ _ _ _ _ hp] at h
      simp only [Option.map_eq_some'] at h
      obtain ⟨a, ha, rfl⟩ := h
      obtain ⟨s3, st, h1, _, _, _, hs1⟩ := pollStep_exited hp
      have hi1 : LoopInv s1 := by rw [hs1]; exact (readStdout_next h1 hi).1
      have := (drainLoop_post _ _ _ _ _ hi1 ha).2.2.1
      simp only at hto
      rw [this] at hto; cases hto

/-- C8: stall timeout.  (1) At the start of every iteration, and again after
the read of the iteration when its deadline check is next, `timesOutAt` is the
clock value at the most recent read that returned more than 0 bytes (or at
loop entry) plus `timeout * 1000`, in `unsigned long long` arithmetic.  (2) When
an iteration reaches the deadline check with the clock at or past that
deadline, the loop is left there, the child is killed and the result is -1 with
"connection timed out".  (3) When the deadline sum does not wrap around and
every deadline check that is reached happens less than `timeout * 1000` ms
after the most recent read that returned bytes, no run ends with "connection
timed out", however many iterations it takes. -/
theorem C8_stall_timeout (req : Request) (env : Env) :
    (∀ k s, localsAt req env k = some s →
      s.timesOutAt = (lastProgress env k + req.timeout * 1000) % 2 ^ 64) ∧
    (∀ k s s1, localsAt req env k = some s →
      readStdout req.timeout (env.poll k) s = .next s1 →
      s1.timesOutAt = (lastProgress env (k + 1) + req.timeout * 1000) % 2 ^ 64) ∧
    (∀ k, reachesCheck req env k = true →
      (env.poll k).nowAtCheck ≥ (lastProgress env (k + 1) + req.timeout * 1000) % 2 ^ 64 →
      ∀ fuel, k < fuel →
        ∃ s, pollLoop req.timeout env fuel 0 (initLocals req env) = some s ∧
          s.killed = true ∧
          deliver req.url (reap env s) = ⟨-1, req.url, false, msgTimedOut⟩) ∧
    ((∀ k, reachesCheck req env k = true →
        lastProgress env (k + 1) + req.timeout * 1000 < 2 ^ 64) →
      (∀ k, reachesCheck req env k = true →
        (env.poll k).nowAtCheck < lastProgress env (k + 1) + req.timeout * 1000) →
      ∀ fuel s, pollLoop req.timeout env fuel 0 (initLocals req env) = some s →
        deliver req.url (reap env s) ≠ ⟨-1, req.url, false, msgTimedOut⟩) := by
  refine ⟨localsAt_deadline req env, ?_, ?_, ?_⟩
  · intro k s s1 hs h1
    exact readStdout_deadline req env k s s1 (localsAt_deadline req env k s hs) h1
  · intro k hk hnow fuel hf
    obtain ⟨s0, s1, h0, h1, h2⟩ := (reachesCheck_iff req env k).mp hk
    have hd := readStdout_deadline req env k s0 s1 (localsAt_deadline req env k s0 h0) h1
    obtain ⟨f, rfl⟩ : ∃ f, fuel = k + (f + 1) := ⟨fuel - k - 1, by omega⟩
    have hstep : pollStep req.timeout (env.poll k) s0 =
        .done { s1 with killed := true, timedOut := true } := by
      unfold pollStep
      rw [h1]
      simp only [h2, Bool.false_eq_true, if_false]
      rw [if_pos (by rw [hd]; exact hnow)]
    refine ⟨{ s1 with killed := true, timedOut := true }, ?_, rfl, ?_⟩
    · rw [pollLoop_localsAt req env k (f + 1) s0 h0, pollLoop_done _ _ _ _ _ _ hstep]
    · exact (deliver_reap_timedOut env req.url _).mpr rfl
  · intro hwrap hin fuel s h hcon
    have hto := (deliver_reap_timedOut env req.url s).mp hcon
    obtain ⟨k, hk, hge⟩ := pollLoop_timedOut req env fuel 0 (initLocals req env) s rfl h hto
    rw [Nat.mod_eq_of_lt (hwrap k hk)] at hge
    have := hin k hk
    omega

theorem slow_lastProgress (k : Nat) : lastProgress slowEnv (k + 1) = 20000 * (k + 1) := by
  simp [lastProgress, slowEnv]

theorem slow_localsAt (k : Nat) (s : Locals) (h : localsAt sampleRequest slowEnv k = some s) :
    s.body.length = k := by
  induction k generalizing s with
  | zero =>
    simp only [localsAt, Option.some.injEq] at h
    subst h
    rfl
  | succ k ih =>
    obtain ⟨s0, h0, hp⟩ := localsAt_succ h
    have hr := (pollStep_next hp).1
    rw [readStdout_bytes _ _ s0 ['a'] rfl rfl (by simp)] at hr
    split_ifs at hr with hlen
    simp only [Step.next.injEq] at hr
    subst hr
    simp [ih s0 h0]

theorem slow_reaches (k : Nat) (h : reachesCheck sampleRequest slowEnv k = true) :
    k ≤ CURL_MAX_MESSAGE_LENGTH := by
  obtain ⟨s, s1, h0, _, _⟩ := (reachesCheck_iff sampleRequest slowEnv k).mp h
  have := (localsAt_inv sampleRequest slowEnv k s h0).1
  rw [slow_localsAt k s h0] at this
  exact this

/-- C8 at a child that writes nothing, with a timeout of 2 seconds (timed out
in the second iteration), and at a child that writes one byte every 20
seconds, with a timeout of 30 seconds (never timed out). -/
theorem C8_stall_timeout_witness :
    (∃ s, pollLoop hastyRequest.timeout stalledEnv 2 0 (initLocals hastyRequest stalledEnv)
        = some s ∧ s.killed = true ∧
      deliver hastyRequest.url (reap stalledEnv s)
        = ⟨-1, hastyRequest.url, false, msgTimedOut⟩) ∧
    (∀ fuel s, pollLoop sampleRequest.timeout slowEnv fuel 0 (initLocals sampleRequest slowEnv)
        = some s →
      deliver sampleRequest.url (reap slowEnv s) ≠ ⟨-1, sampleRequest.url, false, msgTimedOut⟩) :=
  ⟨(C8_stall_timeout hastyRequest stalledEnv).2.2.1 1 (by decide) (by decide) 2 (by decide),
   (C8_stall_timeout sampleRequest slowEnv).2.2.2
    (fun k hk => by
      have := slow_reaches k hk
      rw [slow_lastProgress]
      simp only [CURL_MAX_MESSAGE_LENGTH, sampleRequest] at *
      omega)
    (fun k _ => by
      rw [slow_lastProgress]
      simp only [slowEnv, sampleRequest]
      omega)⟩

theorem idle_lastProgress (k : Nat) : lastProgress idleEnv k = 0 := by
  induction k with
  | zero => rfl
  | succ k ih =>
    rw [lastProgress, if_neg (by simp [idleEnv, idleEvent])]
    exact ih

theorem idle_clock : ClockAdvances sampleRequest idleEnv := by
  intro i s _
  refine ⟨max i 29, le_max_left _ _, ?_⟩
  rw [idle_lastProgress]
  have : 29 ≤ max i 29 := le_max_right _ _
  simp only [idleEnv, idleEvent, sampleRequest]
  omega

/-- The run of the sample request against a child that writes nothing while
the clock advances by one second per iteration: it comes to its end and does
not stay blocked. -/
theorem idle_run_ends :
    ∃ N, ∀ fuel, N ≤ fuel →
      ∃ t, threadMain sampleRequest idleEnv fuel = some t ∧
        (idleEnv.childExits = true → Action.hang ∉ t) :=
  (handler_once_unless_blocked sampleRequest idleEnv (by decide)).2.2 idle_clock

/-- C9 at the sample request in a file system without `curl`. -/
theorem C9_tool_not_found_witness :
    (∀ p ∈ CURL_PATHS, (sampleEnv false [] 0).fileExists p = false) ∧
    ∃ t, threadMain sampleRequest (sampleEnv false [] 0) 1 = some t ∧
      handlerCalls t = [⟨-1, sampleRequest.url, false, msgToolNotFound⟩] ∧ spawns t = false :=
  ⟨by decide, C9_tool_not_found sampleRequest (sampleEnv false [] 0) 1 (by decide)⟩

/-- C4 fails as stated: with an empty URL and no candidate path in the file
system the handler receives the text of the missing tool, not "cannot fetch
empty URL". -/
theorem C4_counterexample :
    emptyRequest.url = [] ∧
    threadMain emptyRequest (sampleEnv false [] 0) 1
      = some [.handler ⟨-1, [], false, msgToolNotFound⟩] ∧
    msgToolNotFound ≠ msgEmptyURL := by
  decide

/-- C4 (amended): for a request with an empty URL no pipe and no process is
created and the handler is invoked once with status -1; the text is "cannot
fetch empty URL" when at least one candidate path exists, and the text of the
missing tool when none exists (the lookup of lines 98-109 comes first). -/
theorem C4_empty_url (req : Request) (env : Env) (fuel : Nat) (hurl : req.url = []) :
    ((∃ p ∈ CURL_PATHS, env.fileExists p = true) →
      threadMain req env fuel = some [.handler ⟨-1, req.url, false, msgEmptyURL⟩]) ∧
    ((∀ p ∈ CURL_PATHS, env.fileExists p = false) →
      threadMain req env fuel = some [.handler ⟨-1, req.url, false, msgToolNotFound⟩]) ∧
    (∃ t c, threadMain req env fuel = some t ∧ spawns t = false ∧
      handlerCalls t = [c] ∧ c.status = -1) := by
  have h2 : req.url.length = 0 := by rw [hurl]; rfl
  refine ⟨fun hex => ?_, fun hno => ?_, ?_⟩
  · have h1 := curlPath_length_pos env.fileExists hex
    simp only [threadMain, h1, h2, if_false, if_true]
  · simp [threadMain, findCurl_none _ _ hno]
  · by_cases h1 : (findCurl env.fileExists CURL_PATHS).length = 0
    · exact ⟨[.handler ⟨-1, req.url, false, msgToolNotFound⟩],
        ⟨-1, req.url, false, msgToolNotFound⟩,
        by simp only [threadMain, h1, if_true], rfl, rfl, rfl⟩
    · exact ⟨[.handler ⟨-1, req.url, false, msgEmptyURL⟩],
        ⟨-1, req.url, false, msgEmptyURL⟩,
        by simp only [threadMain, h1, h2, if_false, if_true], rfl, rfl, rfl⟩

/-- C4 (amended) at the sample request without URL, `/usr/bin/curl` existing. -/
theorem C4_empty_url_witness :
    emptyRequest.url = [] ∧
    (∃ p ∈ CURL_PATHS, (sampleEnv true [] 0).fileExists p = true) ∧
    threadMain emptyRequest (sampleEnv true [] 0) 1
      = some [.handler ⟨-1, emptyRequest.url, false, msgEmptyURL⟩] :=
  ⟨rfl, ⟨"/usr/bin/curl".toList, by decide, by decide⟩,
    (C4_empty_url emptyRequest (sampleEnv true [] 0) 1 rfl).1
      ⟨"/usr/bin/curl".toList, by decide, by decide⟩⟩

theorem take_min_length {α : Type} (l : List α) (n : Nat) :
    l.take (min l.length n) = l.take n := by
  by_cases h : l.length ≤ n
  · rw [Nat.min_eq_left h, List.take_of_length_le h, List.take_of_length_le (le_refl _)]
  · rw [Nat.min_eq_right (by omega)]

theorem length_flatMap_pair {α β : Type} (l : List α) (f g : α → β) :
    (l.flatMap (fun h => [f h, g h])).length = 2 * l.length := by
  induction l with
  | nil => rfl
  | cons a l ih => simp only [List.flatMap_cons, List.length_append, ih, List.length_cons,
      List.length_nil]; omega

theorem cstr_of_no_nul (s : Str) (h : '\x00' ∉ s) : cstr s = s := by
  unfold cstr
  rw [List.takeWhile_eq_self_iff]
  intro c hc
  simp only [ne_eq, decide_eq_true_eq]
  intro e
  exact h (e ▸ hc)

theorem cstr_curl_path (f : Str → Bool) (h : ∃ p ∈ CURL_PATHS, f p = true) :
    cstr (findCurl f CURL_PATHS) = findCurl f CURL_PATHS := by
  have := findCurl_mem f CURL_PATHS h
  generalize findCurl f CURL_PATHS = t at this
  simp [CURL_PATHS] at this
  rcases this with rfl | rfl | rfl | rfl | rfl <;> decide

theorem flatMap_cstr (l : List (Str × Str))
    (hl : ∀ h ∈ l, '\x00' ∉ h.1 ∧ '\x00' ∉ h.2) :
    l.flatMap (fun h => [some "-H".toList, some (cstr (h.1 ++ ": ".toList ++ h.2))]) =
      l.flatMap (fun h => [some "-H".toList, some (h.1 ++ ": ".toList ++ h.2)]) := by
  induction l with
  | nil => rfl
  | cons a l ih =>
    obtain ⟨h1, h2⟩ := hl a (by simp)
    have hn : '\x00' ∉ a.1 ++ ": ".toList ++ a.2 := by
      simp only [List.mem_append, not_or]
      exact ⟨⟨h1, by decide⟩, h2⟩
    rw [List.flatMap_cons, List.flatMap_cons, cstr_of_no_nul _ hn,
      ih (fun h hh => hl h (by simp [hh]))]

/-- C10 (amended): for a non-empty URL and a file system in which a candidate
exists, with `t` the first candidate that exists and `k = min n 509` for `n`
headers, `curlArgs` holds `t`, `-D`, `-`, then `-H` and `name: value` for each
of the first `k` headers in the order of the map, then the URL, then the null
pointer, where `name: value` and the URL are passed as C strings, that is up to
their first NUL byte; when no header name, header value or URL holds a NUL
byte the vector is the one with the full strings.  The index of the null
pointer is `4 + 2 * k`, which is below 1024; and in the child this vector is
what `execv` receives, no handler being invoked there. -/
theorem C10_argument_vector (req : Request) (env : Env) (fuel : Nat)
    (hurl : req.url ≠ [])
    (hex : ∃ p ∈ CURL_PATHS, env.fileExists p = true) :
    ∃ t pre post,
      CURL_PATHS = pre ++ t :: post ∧ env.fileExists t = true ∧
      (∀ q ∈ pre, env.fileExists q = false) ∧
      buildArgs t req =
        ([some t, some "-D".toList, some "-".toList]
          ++ (req.headers.take (min req.headers.length 509)).flatMap
              (fun h => [some "-H".toList, some (cstr (h.1 ++ ": ".toList ++ h.2))])
          ++ [some (cstr req.url), none],
         4 + 2 * min req.headers.length 509) ∧
      ((∀ h ∈ req.headers, '\x00' ∉ h.1 ∧ '\x00' ∉ h.2) → '\x00' ∉ req.url →
        buildArgs t req =
          ([some t, some "-D".toList, some "-".toList]
            ++ (req.headers.take (min req.headers.length 509)).flatMap
                (fun h => [some "-H".toList, some (h.1 ++ ": ".toList ++ h.2)])
            ++ [some req.url, none],
           4 + 2 * min req.headers.length 509)) ∧
      (buildArgs t req).1[4 + 2 * min req.headers.length 509]? = some none ∧
      4 + 2 * min req.headers.length 509 < 1024 ∧
      (env.forkResult = 0 →
        ∃ tr, threadMain req env fuel = some tr ∧
          Action.execv t (buildArgs t req).1 ∈ tr ∧ handlerCalls tr = []) := by
  obtain ⟨pre, post, h1, h2, h3⟩ := findCurl_first env.fileExists CURL_PATHS hex
  have hc := cstr_curl_path env.fileExists hex
  have hb : buildArgs (findCurl env.fileExists CURL_PATHS) req =
        ([some (findCurl env.fileExists CURL_PATHS), some "-D".toList, some "-".toList]
          ++ (req.headers.take (min req.headers.length 509)).flatMap
              (fun h => [some "-H".toList, some (cstr (h.1 ++ ": ".toList ++ h.2))])
          ++ [some (cstr req.url), none],
         4 + 2 * min req.headers.length 509) := by
    simp only [buildArgs, headerArgLoop_eq, headerArgs, hc]
    have e : (1021 - 3) / 2 = 509 := by norm_num
    rw [e]
    simp only [List.length_map, Prod.mk.injEq]
    constructor
    · rw [take_min_length, ← List.map_take, List.flatMap_map]
      simp
    · omega
  refine ⟨findCurl env.fileExists CURL_PATHS, pre, post, h1, h2, h3, hb, ?_, ?_, by omega, ?_⟩
  · intro hh hu
    rw [hb, cstr_of_no_nul _ hu,
      flatMap_cstr _ (fun h hm => hh h (List.mem_of_mem_take hm))]
  · rw [hb]
    have hlen : ([some (findCurl env.fileExists CURL_PATHS), some "-D".toList, some "-".toList]
          ++ (req.headers.take (min req.headers.length 509)).flatMap
              (fun h => [some "-H".toList, some (cstr (h.1 ++ ": ".toList ++ h.2))])).length
        = 3 + 2 * min req.headers.length 509 := by
      rw [List.length_append, length_flatMap_pair, List.length_take]
      simp only [List.length_cons, List.length_nil]
      have : min (min req.headers.length 509) req.headers.length = min req.headers.length 509 := by
        omega
      rw [this]
    simp only
    rw [List.getElem?_append_right (by rw [hlen]; omega), hlen]
    have e2 : 4 + 2 * min req.headers.length 509 - (3 + 2 * min req.headers.length 509) = 1 := by
      omega
    rw [e2]
    rfl
  · intro hf
    have hl := curlPath_length_pos env.fileExists hex
    have h2 : req.url.length ≠ 0 := fun e => hurl (List.length_eq_zero.mp e)
    refine ⟨[.pipe, .pipe, .vfork, .dup2, .close, .dup2, .close,
        .execv (findCurl env.fileExists CURL_PATHS)
          (buildArgs (findCurl env.fileExists CURL_PATHS) req).1]
        ++ (if env.execvFails then [.exit (-1)] else []), ?_, ?_, ?_⟩
    · simp only [threadMain, hl, h2, hf, hc, if_false, lt_self_iff_false, gt_iff_lt]
    · simp
    · cases env.execvFails <;> simp [handlerCalls]

/-- C10 fails as stated: the URL `"\x00abc"` is not empty, so line 111 lets
it pass, but `execv` reads the argument up to its first NUL byte and the tool
receives the empty string as its last argument, not the URL. -/
theorem C10_counterexample :
    nulRequest.url ≠ [] ∧
    (∃ p ∈ CURL_PATHS, childEnv.fileExists p = true) ∧
    threadMain nulRequest childEnv 1
      = some [.pipe, .pipe, .vfork, .dup2, .close, .dup2, .close,
          .execv "/usr/bin/curl".toList
            [some "/usr/bin/curl".toList, some "-D".toList, some "-".toList,
             some "-H".toList, some "Accept: */*".toList, some [], none]] ∧
    (some ([] : Str)) ≠ some nulRequest.url :=
  ⟨by decide, ⟨"/usr/bin/curl".toList, by decide, by decide⟩, by decide, by decide⟩

/-- C10 (amended) at the sample request, seen from the child. -/
theorem C10_argument_vector_witness :
    sampleRequest.url ≠ [] ∧ childEnv.forkResult = 0 ∧
    threadMain sampleRequest childEnv 1
      = some [.pipe, .pipe, .vfork, .dup2, .close, .dup2, .close,
          .execv "/usr/bin/curl".toList
            [some "/usr/bin/curl".toList, some "-D".toList, some "-".toList,
             some "-H".toList, some "Accept: */*".toList, some "http://x/".toList, none]] ∧
    ∃ t pre post,
      CURL_PATHS = pre ++ t :: post ∧ childEnv.fileExists t = true ∧
      (∀ q ∈ pre, childEnv.fileExists q = false) ∧
      buildArgs t sampleRequest =
        ([some t, some "-D".toList, some "-".toList]
          ++ (sampleRequest.headers.take (min sampleRequest.headers.length 509)).flatMap
              (fun h => [some "-H".toList, some (cstr (h.1 ++ ": ".toList ++ h.2))])
          ++ [some (cstr sampleRequest.url), none],
         4 + 2 * min sampleRequest.headers.length 509) ∧
      ((∀ h ∈ sampleRequest.headers, '\x00' ∉ h.1 ∧ '\x00' ∉ h.2) →
        '\x00' ∉ sampleRequest.url →
        buildArgs t sampleRequest =
          ([some t, some "-D".toList, some "-".toList]
            ++ (sampleRequest.headers.take (min sampleRequest.headers.length 509)).flatMap
                (fun h => [some "-H".toList, some (h.1 ++ ": ".toList ++ h.2)])
            ++ [some sampleRequest.url, none],
           4 + 2 * min sampleRequest.headers.length 509)) ∧
      (buildArgs t sampleRequest).1[4 + 2 * min sampleRequest.headers.length 509]? = some none ∧
      4 + 2 * min sampleRequest.headers.length 509 < 1024 ∧
      (childEnv.forkResult = 0 →
        ∃ tr, threadMain sampleRequest childEnv 1 = some tr ∧
          Action.execv t (buildArgs t sampleRequest).1 ∈ tr ∧ handlerCalls tr = []) :=
  ⟨by decide, rfl, by decide,
    C10_argument_vector sampleRequest childEnv 1 (by decide)
      ⟨"/usr/bin/curl".toList, by decide, by decide⟩⟩

end ZeroTier
